import Mathlib

/-!
Verification of the LocLM agent core, shallowly embedded from
`src/LocLM/backend/agent`: the tool middleware (tool-name and argument
normalization, fuzzy matching, path sanitization), the tool-call
extractor, the agent loop's path resolution, per-call status
classification and iteration cap, and the file change tracker.

Python values reaching this code are JSON-derived (the model emits JSON
tool calls), so mappings are modelled with string keys and insertion
order, and machine integers play no role.  Python exceptions are
modelled with `Except`; every Python function that cannot raise becomes
a total Lean function.
-/

set_option maxRecDepth 10000

/-- A Python/JSON value as it flows through the agent code. -/
inductive PyVal where
  | none
  | bool (b : Bool)
  | int (n : Int)
  | str (s : String)
  | list (xs : List PyVal)
  | dict (entries : List (String × PyVal))

/-- `value is None` test from Python. -/
def PyVal.isNone : PyVal → Bool
  | .none => true
  | _ => false

/-- The Python exceptions this embedding distinguishes. -/
inductive PyErr where
  | attributeError (msg : String)
  | valueError (msg : String)

/-- First-occurrence lookup in an insertion-ordered dict (Python dicts
have unique keys, so first = only). -/
def pyLookup (d : List (String × PyVal)) (k : String) : Option PyVal :=
  match d with
  | [] => Option.none
  | (k', v) :: rest => if k' = k then some v else pyLookup rest k

/-- `d.get(k, default)` from Python. -/
def pyGet (d : List (String × PyVal)) (k : String) (dflt : PyVal) : PyVal :=
  (pyLookup d k).getD dflt

/-- `d[k] = v` from Python: overwrite in place, else append (insertion
order preserved). -/
def pyDictSet (d : List (String × PyVal)) (k : String) (v : PyVal) :
    List (String × PyVal) :=
  if d.any (fun kv => kv.1 = k) then
    d.map (fun kv => if kv.1 = k then (k, v) else kv)
  else
    d ++ [(k, v)]

/-- The keys of a dict, in insertion order. -/
def pyKeys (d : List (String × PyVal)) : List String := d.map (·.1)

/-- String-valued dict used for the middleware's tool alias map. -/
def strLookup (d : List (String × String)) (k : String) : Option String :=
  match d with
  | [] => Option.none
  | (k', v) :: rest => if k' = k then some v else strLookup rest k

/-- `d[k] = v` for the string-valued alias map. -/
def strDictSet (d : List (String × String)) (k v : String) :
    List (String × String) :=
  if d.any (fun kv => kv.1 = k) then
    d.map (fun kv => if kv.1 = k then (k, v) else kv)
  else
    d ++ [(k, v)]

/-- Python `str.lower()` on the ASCII range used by tool names. -/
def pyLowerStr (s : String) : String := String.mk (s.data.map Char.toLower)

/-- Characters stripped by Python `str.strip()` with no argument. -/
def isPySpace (c : Char) : Bool :=
  c = ' ' ∨ c = '\t' ∨ c = '\n' ∨ c = '\r' ∨ c = '\x0b' ∨ c = '\x0c'

/-- Python `str.strip()` on a character list. -/
def stripWs (l : List Char) : List Char :=
  ((l.dropWhile isPySpace).reverse.dropWhile isPySpace).reverse

/-- Python `str.strip()`. -/
def pyStrip (s : String) : String := String.mk (stripWs s.data)

/-! ### difflib model

`difflib.get_close_matches` with `n=1`, as used for tool-name and
argument fuzzy matching.  `SequenceMatcher` is instantiated with no
junk predicate, and every string involved is far below the autojunk
threshold (200 chars), so matching is the plain
longest-matching-block recursion.  `ratio() = 2*M/T` is compared with
the cutoff by exact cross-multiplication; the concrete ratios arising
here are far from the double-rounding boundary of the Python floats,
so the rational comparison is faithful. -/

/-- Length of the common prefix of two character lists. -/
def commonPrefixLen : List Char → List Char → Nat
  | a :: as, b :: bs => if a = b then commonPrefixLen as bs + 1 else 0
  | _, _ => 0

/-- Length of the matching run starting at `a[i]`/`b[j]`, confined to
the windows `[i, ahi)` and `[j, bhi)`. -/
def runLen (a b : List Char) (i j ahi bhi : Nat) : Nat :=
  commonPrefixLen ((a.drop i).take (ahi - i)) ((b.drop j).take (bhi - j))

/-- `SequenceMatcher.find_longest_match` on the window: the longest
matching block, ties broken towards the lexicographically smallest
start position (which is what difflib's ascending scan with a
strictly-greater update yields). -/
def findLongestBlock (a b : List Char) (alo ahi blo bhi : Nat) :
    Nat × Nat × Nat :=
  (List.range' alo (ahi - alo)).foldl
    (fun best i =>
      (List.range' blo (bhi - blo)).foldl
        (fun best j =>
          let k := runLen a b i j ahi bhi
          if best.2.2 < k then (i, j, k) else best)
        best)
    (alo, blo, 0)

/-- Total size of all matching blocks (the `M` of `ratio`), by the
`get_matching_blocks` divide-and-conquer.  `fuel` bounds the recursion;
any fuel of at least `ahi - alo + 1` is exact. -/
def matchingTotal (fuel : Nat) (a b : List Char) (alo ahi blo bhi : Nat) :
    Nat :=
  match fuel with
  | 0 => 0
  | fuel + 1 =>
    let (i, j, k) := findLongestBlock a b alo ahi blo bhi
    if k = 0 then 0
    else
      matchingTotal fuel a b alo i blo j + k +
        matchingTotal fuel a b (i + k) ahi (j + k) bhi

/-- `M` for two whole strings. -/
def matchSum (a b : List Char) : Nat :=
  matchingTotal (a.length + 1) a b 0 a.length 0 b.length

/-- `ratio() >= cutoff` where `cutoff = cutNum/cutDen`: `2*M/T` against
the cutoff by cross-multiplication; `T = 0` gives ratio `1.0`. -/
def ratioGe (m t cutNum cutDen : Nat) : Bool :=
  if t = 0 then cutNum ≤ cutDen else cutNum * t ≤ cutDen * (2 * m)

/-- Lexicographic `<` on character lists: Python string comparison by
code points. -/
def charListLt : List Char → List Char → Bool
  | [], [] => false
  | [], _ :: _ => true
  | _ :: _, [] => false
  | a :: as, b :: bs =>
    if a.val < b.val then true
    else if b.val < a.val then false
    else charListLt as bs

/-- Candidate comparison used by `heapq.nlargest` on `(score, string)`
pairs: strictly greater score first, then strictly greater string. -/
def candGt (m1 t1 : Nat) (x1 : List Char) (m2 t2 : Nat) (x2 : List Char) :
    Bool :=
  let n1 := if t1 = 0 then 1 else 2 * m1
  let d1 := if t1 = 0 then 1 else t1
  let n2 := if t2 = 0 then 1 else 2 * m2
  let d2 := if t2 = 0 then 1 else t2
  if d2 * n1 ≠ d1 * n2 then d1 * n2 < d2 * n1 else charListLt x2 x1

/-- `difflib.get_close_matches(word, possibilities, n=1, cutoff)`:
keep candidates whose ratio clears the cutoff, return the best (first
occurrence wins full ties, as `nlargest` is a stable descending sort). -/
def closeMatch1 (word : List Char) (possibilities : List (List Char))
    (cutNum cutDen : Nat) : Option (List Char) :=
  let cands := possibilities.filterMap (fun x =>
    let m := matchSum x word
    let t := x.length + word.length
    if ratioGe m t cutNum cutDen then some (x, m, t) else Option.none)
  match cands with
  | [] => Option.none
  | c :: cs =>
    some ((cs.foldl
      (fun best c' =>
        if candGt c'.2.1 c'.2.2 c'.1 best.2.1 best.2.2 best.1 then c'
        else best)
      c).1)

/-- `get_close_matches` with `n=1` on strings. -/
def closeMatch1S (word : String) (possibilities : List String)
    (cutNum cutDen : Nat) : Option String :=
  (closeMatch1 word.data (possibilities.map (·.data)) cutNum cutDen).map
    String.mk

/-! ### Tool schema registry

Transcribed from `TOOL_SCHEMAS` in `tool_middleware.py`, in source
order, with every alias and parameter. -/

/-- `ToolParameter` dataclass. -/
structure ToolParameterM where
  name : String
  required : Bool := true
  aliases : List String := []
  param_type : String := "string"
  dflt : Option PyVal := Option.none

/-- `ToolSchema` dataclass. -/
structure ToolSchemaM where
  name : String
  description : String
  parameters : List ToolParameterM
  aliases : List String := []

def listDirectorySchema : ToolSchemaM :=
  { name := "list_directory"
    description := "List contents of a directory"
    aliases := ["ls", "dir", "list_dir", "listdir", "list_files"]
    parameters := [
      { name := "path", required := false
        aliases := ["directory", "dir", "folder", "location"]
        param_type := "path", dflt := some (.str ".") }] }

def readFileSchema : ToolSchemaM :=
  { name := "read_file"
    description := "Read the contents of a file"
    aliases := ["cat", "view_file", "get_file", "open_file", "read", "view"]
    parameters := [
      { name := "path", required := true
        aliases := ["filename", "file", "filepath", "file_path", "name"]
        param_type := "path" }] }

def writeFileSchema : ToolSchemaM :=
  { name := "write_file"
    description := "Write content to a file"
    aliases := ["create_file", "save_file", "write", "save", "create", "put_file"]
    parameters := [
      { name := "path", required := true
        aliases := ["filename", "file", "filepath", "file_path", "name"]
        param_type := "path" },
      { name := "content", required := true
        aliases := ["text", "data", "body", "contents", "code"]
        param_type := "content" }] }

def runCommandSchema : ToolSchemaM :=
  { name := "run_command"
    description := "Execute a shell command"
    aliases := ["exec", "execute", "shell", "bash", "cmd", "run", "terminal"]
    parameters := [
      { name := "command", required := true
        aliases := ["cmd", "shell_command", "script", "commands"]
        param_type := "command" }] }

def searchFilesSchema : ToolSchemaM :=
  { name := "search_files"
    description := "Search for files by pattern"
    aliases := ["find", "find_files", "glob", "locate"]
    parameters := [
      { name := "pattern", required := true
        aliases := ["glob", "query", "search", "name"]
        param_type := "string" },
      { name := "path", required := false
        aliases := ["directory", "dir", "folder", "in"]
        param_type := "path", dflt := some (.str ".") }] }

def grepFilesSchema : ToolSchemaM :=
  { name := "grep_files"
    description := "Search for text within files"
    aliases := ["grep", "search", "find_text", "search_content", "search_in_files"]
    parameters := [
      { name := "pattern", required := true
        aliases := ["query", "search", "text", "regex", "term"]
        param_type := "string" },
      { name := "path", required := false
        aliases := ["directory", "dir", "folder", "in"]
        param_type := "path", dflt := some (.str ".") },
      { name := "file_pattern", required := false
        aliases := ["glob", "files", "filter", "extension"]
        param_type := "string", dflt := some (.str "*") }] }

def editFileSchema : ToolSchemaM :=
  { name := "edit_file"
    description := "Edit a file by replacing text"
    aliases := ["replace", "modify", "update_file", "patch"]
    parameters := [
      { name := "path", required := true
        aliases := ["filename", "file", "filepath"]
        param_type := "path" },
      { name := "old_text", required := true
        aliases := ["find", "search", "original", "from", "old"]
        param_type := "content" },
      { name := "new_text", required := true
        aliases := ["replace", "replacement", "to", "new", "with"]
        param_type := "content" },
      { name := "all_occurrences", required := false
        aliases := ["all", "global", "replace_all"]
        param_type := "string", dflt := some (.bool false) }] }

def createDirectorySchema : ToolSchemaM :=
  { name := "create_directory"
    description := "Create a new directory"
    aliases := ["mkdir", "make_dir", "new_folder", "create_folder"]
    parameters := [
      { name := "path", required := true
        aliases := ["directory", "dir", "folder", "name"]
        param_type := "path" }] }

def deleteFileSchema : ToolSchemaM :=
  { name := "delete_file"
    description := "Delete a file or empty directory"
    aliases := ["rm", "remove", "delete", "unlink", "rmdir"]
    parameters := [
      { name := "path", required := true
        aliases := ["filename", "file", "filepath", "target"]
        param_type := "path" }] }

def listToolsSchema : ToolSchemaM :=
  { name := "list_tools"
    description := "List all available tools"
    aliases := ["help", "tools", "available_tools"]
    parameters := [] }

def readToolSchema : ToolSchemaM :=
  { name := "read_tool"
    description := "Read a tool's source code"
    aliases := ["view_tool", "tool_source"]
    parameters := [
      { name := "name", required := true
        aliases := ["tool", "tool_name"]
        param_type := "string" }] }

/-- `TOOL_SCHEMAS`, in source (insertion) order. -/
def toolSchemas : List (String × ToolSchemaM) := [
  ("list_directory", listDirectorySchema),
  ("read_file", readFileSchema),
  ("write_file", writeFileSchema),
  ("run_command", runCommandSchema),
  ("search_files", searchFilesSchema),
  ("grep_files", grepFilesSchema),
  ("edit_file", editFileSchema),
  ("create_directory", createDirectorySchema),
  ("delete_file", deleteFileSchema),
  ("list_tools", listToolsSchema),
  ("read_tool", readToolSchema)]

/-- `TOOL_SCHEMAS.get(name)`. -/
def findSchema (n : String) : Option ToolSchemaM :=
  match toolSchemas.find? (fun kv => kv.1 = n) with
  | some kv => some kv.2
  | Option.none => Option.none

/-! ### Tool middleware -/

/-- `ToolMiddleware._build_alias_map`: fold over the registry, mapping
each canonical name and each lowercased alias to the canonical name
(dict-overwrite semantics), and collecting all names in order. -/
def buildAliasState : List (String × String) × List String :=
  toolSchemas.foldl
    (fun st entry =>
      let st1 := (strDictSet st.1 entry.1 entry.1, st.2 ++ [entry.1])
      entry.2.aliases.foldl
        (fun st2 al =>
          (strDictSet st2.1 (pyLowerStr al) entry.1,
           st2.2 ++ [pyLowerStr al]))
        st1)
    ([], [])

/-- `self.tool_alias_map`. -/
def toolAliasMap : List (String × String) := buildAliasState.1

/-- `self.all_tool_names`. -/
def allToolNames : List String := buildAliasState.2

/-- `ToolMiddleware._resolve_tool_name`: exact alias-map hit, else
fuzzy match at cutoff 0.6, else pass the raw name through. -/
def resolveToolName (raw : String) : String :=
  match strLookup toolAliasMap raw with
  | some c => c
  | Option.none =>
    match closeMatch1S raw allToolNames 6 10 with
    | some matched => (strLookup toolAliasMap matched).getD matched
    | Option.none => raw

/-! ### Path sanitization (`ToolMiddleware._sanitize_path`)

Strings are worked on as character lists so that the split/join
structure is available to induction. -/

/-- `re.sub(r'/+', '/', s)`: collapse runs of slashes.  The flag
tracks whether the previous kept character was a slash. -/
def collapseSlashes : Bool → List Char → List Char
  | _, [] => []
  | prevSlash, c :: rest =>
    if c = '/' then
      if prevSlash then collapseSlashes true rest
      else '/' :: collapseSlashes true rest
    else c :: collapseSlashes false rest

/-- Python `s.split('/')` (always at least one token; empty tokens for
leading, trailing and doubled separators). -/
def splitSlash : List Char → List (List Char)
  | [] => [[]]
  | c :: rest =>
    if c = '/' then [] :: splitSlash rest
    else
      match splitSlash rest with
      | t :: ts => (c :: t) :: ts
      | [] => [[c]]

/-- Python `'/'.join(parts)`. -/
def joinSlash : List (List Char) → List Char
  | [] => []
  | [p] => p
  | p :: ps => p ++ '/' :: joinSlash ps

/-- The `..`-resolution fold of `_sanitize_path`: `..` pops the last
accumulated component (dropped at root), empty and `.` components are
skipped, everything else is appended. -/
def sanitizeFoldStep (acc : List (List Char)) (part : List Char) :
    List (List Char) :=
  if part = ['.', '.'] then acc.dropLast
  else if part ≠ [] ∧ part ≠ ['.'] then acc ++ [part]
  else acc

/-- The character-level first half of `_sanitize_path`: strip null
bytes, normalize backslashes, strip leading slashes when a workspace is
set, collapse repeated slashes. -/
def sanitizePre (hasWs : Bool) (p : List Char) : List Char :=
  collapseSlashes false
    (if hasWs then
      ((p.filter (fun c => c ≠ '\x00')).map
        (fun c => if c = '\\' then '/' else c)).dropWhile (fun c => c = '/')
    else
      (p.filter (fun c => c ≠ '\x00')).map
        (fun c => if c = '\\' then '/' else c))

/-- The `safe_parts` list of `_sanitize_path`. -/
def sanitizeParts (hasWs : Bool) (p : List Char) : List (List Char) :=
  (splitSlash (sanitizePre hasWs p)).foldl sanitizeFoldStep []

/-- `ToolMiddleware._sanitize_path` on a character list.  `hasWs`
models `self.workspace` being set (it only gates the leading-slash
strip); `'/'.join(safe_parts) or '.'` is the final step. -/
def sanitizePath (hasWs : Bool) (p : List Char) : List Char :=
  let j := joinSlash (sanitizeParts hasWs p)
  if j = [] then ['.'] else j

/-- `_sanitize_path` on strings, with a workspace configured (the only
way `_validate_paths` reaches it). -/
def sanitizePathStr (s : String) : String :=
  String.mk (sanitizePath true s.data)

/-! ### Argument normalization (`ToolMiddleware._normalize_arguments`) -/

/-- Per-parameter loop state: the dict under construction, the warning
list, and `used_raw_keys`. -/
structure NormState where
  normalized : List (String × PyVal)
  warnings : List String
  used : List String

/-- First declared alias present in `raw_args` (the alias loop with its
`break`). -/
def firstAliasHit (rawArgs : List (String × PyVal)) (aliases : List String) :
    Option (String × PyVal) :=
  aliases.findSome? (fun a => (pyLookup rawArgs a).map (fun v => (a, v)))

/-- The fuzzy pass: first raw key not yet consumed whose lowercased
form matches the parameter's lowercased names at cutoff 0.7. -/
def fuzzyHit (rawArgs : List (String × PyVal)) (used : List String)
    (p : ToolParameterM) : Option (String × PyVal) :=
  let remaining := (pyKeys rawArgs).filter (fun k => ¬ used.contains k)
  let allNames := (p.name :: p.aliases).map pyLowerStr
  remaining.findSome? (fun k =>
    match pyLookup rawArgs k with
    | some v =>
      if (closeMatch1S (pyLowerStr k) allNames 7 10).isSome then some (k, v)
      else Option.none
    | Option.none => Option.none)

/-- The value / matched-key / warnings triple found for one parameter:
the canonical key, then the first present alias key, then (only when
the value found so far `is None`) the fuzzy pass. -/
def paramMatch (rawArgs : List (String × PyVal)) (used : List String)
    (p : ToolParameterM) : PyVal × Option String × List String :=
  let s0 : PyVal × Option String × List String :=
    match pyLookup rawArgs p.name with
    | some v => (v, some p.name, [])
    | Option.none =>
      match firstAliasHit rawArgs p.aliases with
      | some (a, v) =>
        (v, some a, ["Arg '" ++ a ++ "' normalized to '" ++ p.name ++ "'"])
      | Option.none => (PyVal.none, Option.none, [])
  if s0.1.isNone then
    match fuzzyHit rawArgs used p with
    | some (k, v) =>
      (v, some k,
       s0.2.2 ++ ["Fuzzy matched '" ++ k ++ "' to '" ++ p.name ++ "'"])
    | Option.none => s0
  else s0

/-- One iteration of the `for param in schema.parameters` loop of
`_normalize_arguments`: find the value via `paramMatch`, record the
matched key as used; bind the value, else the default, else warn if
required. -/
def normArgStep (rawArgs : List (String × PyVal)) (st : NormState)
    (p : ToolParameterM) : NormState :=
  let s1 := paramMatch rawArgs st.used p
  let used' := match s1.2.1 with
    | some k => st.used ++ [k]
    | Option.none => st.used
  if ¬ s1.1.isNone then
    ⟨pyDictSet st.normalized p.name s1.1, st.warnings ++ s1.2.2, used'⟩
  else
    match p.dflt with
    | some d =>
      ⟨pyDictSet st.normalized p.name d, st.warnings ++ s1.2.2, used'⟩
    | Option.none =>
      if p.required then
        ⟨st.normalized,
         st.warnings ++ s1.2.2 ++
           ["Missing required parameter '" ++ p.name ++ "'"],
         used'⟩
      else ⟨st.normalized, st.warnings ++ s1.2.2, used'⟩

/-- `ToolMiddleware._normalize_arguments`. -/
def normalizeArguments (rawArgs : List (String × PyVal))
    (schema : ToolSchemaM) : List (String × PyVal) × List String :=
  let st := schema.parameters.foldl (normArgStep rawArgs) ⟨[], [], []⟩
  (st.normalized, st.warnings)

/-- `ToolMiddleware._validate_paths`: sanitize every bound string value
of a `path`-kind parameter, warning when the value changed (only called
when a workspace is configured). -/
def validatePaths (args : List (String × PyVal)) (schema : ToolSchemaM) :
    List (String × PyVal) × List String :=
  schema.parameters.foldl
    (fun st p =>
      if p.param_type = "path" then
        match pyLookup st.1 p.name with
        | some (.str s) =>
          let s' := sanitizePathStr s
          (pyDictSet st.1 p.name (.str s'),
           st.2 ++
             (if s' ≠ s then
               ["Path sanitized: '" ++ s ++ "' -> '" ++ s' ++ "'"]
             else []))
        | some _ => st
        | Option.none => st
      else st)
    (args, [])

/-- `ToolMiddleware.normalize_tool_call`.  `hasWs` models
`self.workspace` being set.  A non-mapping input is rejected with the
generic unknown call; a mapping whose `tool` value is present and not a
string raises `AttributeError` at `.lower()` (modelled as `.error`);
a non-mapping `args` value is replaced by the empty dict. -/
def normalizeToolCall (hasWs : Bool) (tc : PyVal) :
    Except PyErr (PyVal × List String) :=
  match tc with
  | .dict d =>
    match pyGet d "tool" (.str "") with
    | .str s =>
      let rawName := pyStrip (pyLowerStr s)
      let rawArgs : List (String × PyVal) :=
        match pyGet d "args" (.dict []) with
        | .dict a => a
        | _ => []
      let canonical := resolveToolName rawName
      let w1 : List String :=
        if canonical ≠ rawName then
          ["Tool '" ++ rawName ++ "' resolved to '" ++ canonical ++ "'"]
        else []
      match findSchema canonical with
      | Option.none =>
        .ok (.dict [("tool", .str canonical), ("args", .dict rawArgs)],
             w1 ++ ["Unknown tool '" ++ canonical ++ "' - passing through"])
      | some schema =>
        let na := normalizeArguments rawArgs schema
        let nb := if hasWs then validatePaths na.1 schema else (na.1, [])
        .ok (.dict [("tool", .str canonical), ("args", .dict nb.1)],
             w1 ++ na.2 ++ nb.2)
    | _ =>
      .error (.attributeError "lower")
  | _ =>
    .ok (.dict [("tool", .str "unknown"), ("args", .dict [])],
         ["Invalid tool call format"])

/-! ### Tool call extraction (`AgentLoop._extract_tool_call`)

`json.loads` composed with `_fix_multiline_json` is stdlib behaviour,
abstracted as a `parse : String -> Option (...)` argument: a candidate
that is valid JSON (after the triple-quote repair) parses to its
object entries — a text that begins with `{` can only parse as an
object — and an invalid candidate gives `Option.none`, which models
`json.JSONDecodeError`.  The control flow around it (fence priority
order, the brace pre-check, and the fact that the surrounding
`try/except` wraps the whole marker loop, so a parse error ends the
whole search) is embedded from the source. -/

/-- First index of `needle` in `hay` (Python `str.find`, as an
`Option`). -/
def strFind (hay needle : List Char) : Option Nat :=
  match hay with
  | [] => if needle = [] then some 0 else Option.none
  | _ :: rest =>
    if needle.isPrefixOf hay then some 0
    else (strFind rest needle).map (· + 1)

/-- The candidate block for one fence marker: present marker, a later
closing triple backtick with nonempty contents, stripped.  `Option.none`
covers a missing marker, a missing closing fence and `end <= start`
alike — all of which make the Python loop move to the next marker. -/
def candidateBlock (r marker : String) : Option String :=
  let rl := r.data
  match strFind rl marker.data with
  | Option.none => Option.none
  | some idx =>
    let start := idx + marker.length
    match strFind (rl.drop start) "```".data with
    | Option.none => Option.none
    | some off =>
      if 0 < off then some (String.mk (stripWs ((rl.drop start).take off)))
      else Option.none

/-- The marker loop of `_extract_tool_call` over the fixed priority
list.  A candidate not starting with an object brace is skipped; a
parse failure raises `json.JSONDecodeError`, which the `except` outside
the loop turns into an immediate `None` (no later marker is tried); a
parsed object without a `"tool"` key lets the loop continue. -/
def extractGo (parse : String → Option (List (String × PyVal)))
    (r : String) : List String → Option PyVal
  | [] => Option.none
  | m :: ms =>
    match candidateBlock r m with
    | Option.none => extractGo parse r ms
    | some s =>
      if ¬ "\x7b".data.isPrefixOf s.data then extractGo parse r ms
      else
        match parse s with
        | Option.none => Option.none
        | some d =>
          if (pyLookup d "tool").isSome then some (.dict d)
          else extractGo parse r ms

/-- `AgentLoop._extract_tool_call`. -/
def extractToolCall (parse : String → Option (List (String × PyVal)))
    (r : String) : Option PyVal :=
  extractGo parse r ["```tool", "```json", "```"]

/-! ### Path resolution (`AgentLoop._resolve_path`)

Absolute POSIX paths are modelled by their component lists; the
workspace root (already resolved by `set_workspace`) is a component
list.  `Path.resolve()` raises `ValueError: embedded null byte` when
the path string contains a null byte; both `resolve()` calls sit
outside the `try` of `_resolve_path` (only `relative_to` is guarded),
so that error escapes — it is modelled in `agentResolvePath` before the
lexical resolution runs.  On null-free paths `resolve()` is modelled
lexically: `.` and empty components vanish at construction, `..` pops
(and is dropped at the filesystem root), which is exactly the
containment-relevant behaviour; `relative_to` succeeds iff the
workspace components are a prefix of the resolved components. -/

/-- `PurePosixPath(s)`: absolute flag and components (`.` and empty
components are dropped, `..` is kept). -/
def parsePath (p : String) : Bool × List String :=
  (p.data.head? = some '/',
   ((splitSlash p.data).map String.mk).filter (fun s => s ≠ "" ∧ s ≠ "."))

/-- The `..`-popping normalization performed by `resolve()` (at the
root, `..` is dropped). -/
def resolveParts : List String → List String → List String
  | [], acc => acc
  | s :: rest, acc =>
    if s = ".." then resolveParts rest acc.dropLast
    else resolveParts rest (acc ++ [s])

/-- The absolute path `(workspace / path).resolve()` (respectively
`Path(path).resolve()` for an absolute input), as components.  Only
reached for null-free paths: `agentResolvePath` raises the
`embedded null byte` `ValueError` before this lexical resolution. -/
def resolvedOf (ws : List String) (p : String) : List String :=
  let parsed := parsePath p
  if parsed.1 then resolveParts parsed.2 []
  else resolveParts parsed.2 ws

/-- `AgentLoop._resolve_path`: empty or `.` gives the workspace before
any `Path` operation; otherwise `resolve()` runs outside the `try` and
raises `ValueError` on an embedded null byte; an out-of-workspace
resolution (a failing `relative_to`) is replaced by the workspace
itself. -/
def agentResolvePath (ws : List String) (p : String) :
    Except PyErr (List String) :=
  if p = "" ∨ p = "." then .ok ws
  else if '\x00' ∈ p.data then .error (.valueError "embedded null byte")
  else
    let r := resolvedOf ws p
    if ws.isPrefixOf r then .ok r else .ok ws

/-! ### File change tracker (`file_tracker.py`) -/

/-- `TrackedFile` dataclass. -/
structure TrackedFileM where
  path : String
  original_content : Option String := Option.none
  new_content : Option String := Option.none
  exists_originally : Bool := true

/-- `TrackedFile.has_changes`. -/
def TrackedFileM.has_changes (t : TrackedFileM) : Bool :=
  t.original_content ≠ t.new_content

/-- `TrackedFile.operation`. -/
def TrackedFileM.operation (t : TrackedFileM) : String :=
  if ¬ t.exists_originally ∧ t.new_content.isSome then "create"
  else if t.original_content.isSome ∧ t.new_content = Option.none then
    "delete"
  else if t.has_changes then "modify"
  else "unchanged"

/-- `FileChangeTracker` state: the tracked-file dict (insertion
ordered) and the `_enabled` flag. -/
structure TrackerState where
  files : List (String × TrackedFileM)
  enabled : Bool

/-- Lookup in the tracked-files dict. -/
def trLookup (files : List (String × TrackedFileM)) (k : String) :
    Option TrackedFileM :=
  match files with
  | [] => Option.none
  | (k', v) :: rest => if k' = k then some v else trLookup rest k

/-- In-place update of one tracked file. -/
def trUpdate (files : List (String × TrackedFileM)) (k : String)
    (f : TrackedFileM → TrackedFileM) : List (String × TrackedFileM) :=
  files.map (fun kv => if kv.1 = k then (kv.1, f kv.2) else kv)

/-- `FileChangeTracker._normalize_path`: backslashes to slashes, strip
slashes at both ends. -/
def trNormalizePath (p : String) : String :=
  let l := p.data.map (fun c => if c = '\\' then '/' else c)
  String.mk (((l.dropWhile (fun c => c = '/')).reverse.dropWhile
    (fun c => c = '/')).reverse)

/-- `FileChangeTracker.record_read`: only the first observation of a
path creates an entry; `exists=False` records no original content. -/
def recordRead (st : TrackerState) (path content : String)
    (exists_ : Bool) : TrackerState :=
  if ¬ st.enabled then st
  else
    let n := trNormalizePath path
    if (trLookup st.files n).isSome then st
    else
      { st with files := st.files ++
          [(n, { path := n
                 original_content :=
                   if exists_ then some content else Option.none
                 exists_originally := exists_ })] }

/-- `FileChangeTracker.record_write`: update `new_content` in place, or
create a fresh entry marked as not originally existing. -/
def recordWrite (st : TrackerState) (path content : String) :
    TrackerState :=
  if ¬ st.enabled then st
  else
    let n := trNormalizePath path
    if (trLookup st.files n).isSome then
      { st with files :=
          trUpdate st.files n (fun t => { t with new_content := some content }) }
    else
      { st with files := st.files ++
          [(n, { path := n, new_content := some content
                 exists_originally := false })] }

/-- `FileChangeTracker.record_delete`: clear `new_content` in place, or
create an entry with no content either side that is marked as
originally existing. -/
def recordDelete (st : TrackerState) (path : String) : TrackerState :=
  if ¬ st.enabled then st
  else
    let n := trNormalizePath path
    if (trLookup st.files n).isSome then
      { st with files :=
          trUpdate st.files n (fun t => { t with new_content := Option.none }) }
    else
      { st with files := st.files ++
          [(n, { path := n, exists_originally := true })] }

/-- `FileChange` pydantic model (the fields `get_changes` populates). -/
structure FileChangeM where
  path : String
  operation : String
  old_content : Option String
  new_content : Option String

/-- `FileChangeTracker.get_changes`. -/
def getChanges (st : TrackerState) : List FileChangeM :=
  st.files.filterMap (fun kv =>
    if kv.2.has_changes ∨ kv.2.operation ≠ "unchanged" then
      some { path := kv.2.path, operation := kv.2.operation
             old_content := kv.2.original_content
             new_content := kv.2.new_content }
    else Option.none)

/-- Python `splitlines(keepends=True)` for newline-terminated text (the
only separator the tracked text model carries). -/
def splitKeepends (l : List Char) : List (List Char) :=
  match l with
  | [] => []
  | c :: rest =>
    match splitKeepends rest with
    | [] => [[c]]
    | t :: ts => if c = '\n' then [c] :: t :: ts else (c :: t) :: ts

/-- Rendering of `difflib.unified_diff` output.  Only its headers and
line markers are modelled — no claim depends on the diff text, only on
`generate_diff` returning `none` or `some`. -/
def renderUnifiedDiff (oldLines newLines : List (List Char))
    (fromfile tofile : String) : String :=
  "--- " ++ fromfile ++ "\n+++ " ++ tofile ++ "\n" ++
    String.mk (joinSlash (oldLines.map (fun l => '-' :: l))) ++
    String.mk (joinSlash (newLines.map (fun l => '+' :: l)))

/-- Append a trailing newline to the last line when it lacks one. -/
def fixTrailingNewline (lines : List (List Char)) : List (List Char) :=
  match lines.getLast? with
  | some last =>
    if last.getLast? ≠ some '\n' then lines.dropLast ++ [last ++ ['\n']]
    else lines
  | Option.none => lines

/-- `FileChangeTracker.generate_diff`: `None` for an untracked path or
one without changes; otherwise the unified diff of the recorded
contents. -/
def generateDiff (st : TrackerState) (path : String) : Option String :=
  let n := trNormalizePath path
  match trLookup st.files n with
  | Option.none => Option.none
  | some t =>
    if ¬ t.has_changes then Option.none
    else
      let oldLines := fixTrailingNewline
        (splitKeepends (t.original_content.getD "").data)
      let newLines := fixTrailingNewline
        (splitKeepends (t.new_content.getD "").data)
      some (renderUnifiedDiff oldLines newLines ("a/" ++ t.path)
        ("b/" ++ t.path))

/-- `FileChangeTracker.get_summary` (the `files` component: path and
operation of each change). -/
structure SummaryM where
  total_files : Nat
  created : Nat
  modified : Nat
  deleted : Nat
  files : List (String × String)

/-- `FileChangeTracker.get_summary`. -/
def getSummary (st : TrackerState) : SummaryM :=
  let changes := getChanges st
  { total_files := changes.length
    created := (changes.filter (fun c => c.operation = "create")).length
    modified := (changes.filter (fun c => c.operation = "modify")).length
    deleted := (changes.filter (fun c => c.operation = "delete")).length
    files := changes.map (fun c => (c.path, c.operation)) }

/-! ### Tool dispatch (`AgentLoop._execute_tool`) and status

The filesystem, subprocess and dynamic-import effects are abstracted
into an oracle recording the outcome each underlying operation would
produce; every result text is the source's f-string for that branch.
The tracker side effects of `_tool_read_file` / `_tool_write_file` are
modelled separately at the tracker level (above); only the returned
text matters to the dispatch-status claims. -/

/-- Outcome of the filesystem read behind `_tool_read_file`: `found`
carries the stat size and the content a successful read would return. -/
inductive ReadOutcome where
  | notExists
  | notFile
  | found (size : Nat) (content : String)
  | permissionDenied
  | exn (msg : String)

/-- Outcome of the filesystem write behind `_tool_write_file`. -/
inductive WriteOutcome where
  | ok
  | permissionDenied
  | exn (msg : String)

/-- Outcome of the directory listing behind `_tool_list_directory`;
entries are `(isDir, displayPath)` pairs in sorted order. -/
inductive ListOutcome where
  | notExists
  | notDir
  | ok (entries : List (Bool × String))
  | permissionDenied
  | exn (msg : String)

/-- Outcome of invoking a dynamically loaded tool. -/
inductive DynOutcome where
  | ok (text : String)
  | raises (msg : String)
  | noAttr

/-- Environment oracle for one `_execute_tool` dispatch. -/
structure ExecOracle where
  readOutcome : ReadOutcome
  writeOutcome : WriteOutcome
  listOutcome : ListOutcome
  runStdout : String
  runStderr : String
  runCode : Int
  customTools : List String
  toolSrcExists : Bool
  toolSrc : String
  dynToolExists : Bool
  dynOutcome : DynOutcome

/-- The argument strings `_execute_tool` reads with
`args.get(key, "")`; a non-string value is not produced by the
normalizer for these parameters, and the claims never exercise one. -/
def argStr (args : List (String × PyVal)) (k : String) : String :=
  match pyLookup args k with
  | some (.str s) => s
  | _ => ""

/-- `AgentLoop._list_available_tools`. -/
def listAvailableTools (customTools : List String) : String :=
  "Built-in tools:\n" ++
  "  - list_tools: List all available tools\n" ++
  "  - read_tool(name): Read a tool's source code\n" ++
  "  - run_command(command): Execute a shell command in workspace\n" ++
  "  - list_directory(path): List directory contents\n" ++
  "  - read_file(path): Read file contents\n" ++
  "  - write_file(path, content): Write content to a file\n" ++
  "\n" ++
  "Custom tools from local_tools/:" ++
  String.join (customTools.map (fun t => "\n  - " ++ t))

/-- `AgentLoop._read_tool_file`. -/
def readToolFile (o : ExecOracle) (name : String) : String :=
  if name = "" then "Error: No tool name provided"
  else if o.toolSrcExists then
    "Source code for '" ++ name ++ "':\n```python\n" ++ o.toolSrc ++ "\n```"
  else "Tool '" ++ name ++ "' not found in local_tools directory"

/-- `AgentLoop._tool_list_directory`. -/
def toolListDirectory (o : ExecOracle) (path : String) : String :=
  match o.listOutcome with
  | .notExists => "Error: Directory '" ++ path ++ "' does not exist"
  | .notDir => "Error: '" ++ path ++ "' is not a directory"
  | .ok entries =>
    if entries = [] then "Directory '" ++ path ++ "' is empty"
    else
      "Contents of '" ++ path ++ "':\n" ++
        String.intercalate "\n"
          (entries.map (fun e =>
            (if e.1 then "dir: " else "file: ") ++ e.2))
  | .permissionDenied =>
    "Error: Permission denied accessing '" ++ path ++ "'"
  | .exn e => "Error listing directory: " ++ e

/-- `AgentLoop._tool_read_file` (the 100KB limit is `100 * 1024`). -/
def toolReadFile (o : ExecOracle) (path : String) : String :=
  if path = "" then "Error: No file path provided"
  else
    match o.readOutcome with
    | .notExists => "Error: File '" ++ path ++ "' does not exist"
    | .notFile => "Error: '" ++ path ++ "' is not a file"
    | .found size content =>
      if 100 * 1024 < size then
        "Error: File '" ++ path ++ "' is too large (" ++ toString size ++
          " bytes). Maximum is 100KB."
      else "Contents of '" ++ path ++ "':\n```\n" ++ content ++ "\n```"
    | .permissionDenied => "Error: Permission denied reading '" ++ path ++ "'"
    | .exn e => "Error reading file: " ++ e

/-- `AgentLoop._tool_write_file`. -/
def toolWriteFile (o : ExecOracle) (path content : String) : String :=
  if path = "" then "Error: No file path provided"
  else
    match o.writeOutcome with
    | .ok =>
      "Successfully wrote " ++ toString content.length ++
        " characters to '" ++ path ++ "'"
    | .permissionDenied =>
      "Error: Permission denied writing to '" ++ path ++ "'"
    | .exn e => "Error writing file: " ++ e

/-- `AgentLoop._execute_tool`: built-in dispatch, then dynamic loading,
then the not-found message; a dynamic-tool exception is caught into its
own message, and a loaded module without the expected attribute falls
through to not-found. -/
def executeTool (o : ExecOracle) (toolName : String)
    (args : List (String × PyVal)) : String :=
  if toolName = "list_tools" then listAvailableTools o.customTools
  else if toolName = "read_tool" then readToolFile o (argStr args "name")
  else if toolName = "run_command" then
    String.intercalate "\n"
      ((if o.runStdout ≠ "" then ["stdout:\n" ++ o.runStdout] else []) ++
       (if o.runStderr ≠ "" then ["stderr:\n" ++ o.runStderr] else []) ++
       ["exit code: " ++ toString o.runCode])
  else if toolName = "list_directory" then
    toolListDirectory o (argStr args "path")
  else if toolName = "read_file" then toolReadFile o (argStr args "path")
  else if toolName = "write_file" then
    toolWriteFile o (argStr args "path") (argStr args "content")
  else if o.dynToolExists then
    match o.dynOutcome with
    | .ok t => t
    | .raises e => "Tool execution error: " ++ e
    | .noAttr =>
      "Tool '" ++ toolName ++ "' not found. Use 'list_tools' to see available tools."
  else
    "Tool '" ++ toolName ++ "' not found. Use 'list_tools' to see available tools."

/-- `ToolCallStatus`. -/
inductive ToolCallStatusM where
  | success
  | error
  | skipped
deriving DecidableEq

/-- The status classification in `AgentLoop.process`: `error` iff the
result text begins with the literal `Error:` marker (Python
`str.startswith`, character-wise). -/
def statusOf (text : String) : ToolCallStatusM :=
  if "Error:".data.isPrefixOf text.data then .error else .success

/-! ### The agent loop (`AgentLoop.process`, agent mode) -/

/-- `ToolResult` as recorded per dispatch. -/
structure ToolResultM where
  tool : String
  args : PyVal
  result : String
  status : ToolCallStatusM
  warnings : List String

/-- The dict `AgentLoop._build_response` returns (tool calls mapped to
`(tool, args, result)` triples). -/
structure ProcessResultM where
  response : String
  tool_calls : List (String × PyVal × String)
  iterations : Nat
  mode : String

/-- `AgentLoop._build_response` in agent mode. -/
def buildResponse (resp : String) (results : List ToolResultM)
    (iters : Nat) : ProcessResultM :=
  { response := resp
    tool_calls := results.map (fun r => (r.tool, r.args, r.result))
    iterations := iters
    mode := "agent" }

/-- The agent-mode iteration loop of `AgentLoop.process`.  The LLM and
tool execution effects are oracles indexed by the iteration number
(`llm i` is the i-th response text, empty for a provider failure;
`execText i` the i-th tool execution's result text); `parse` abstracts
`json.loads` as in `extractToolCall`; `clean` abstracts the
regex-based `_clean_response`; `provider` is `self.provider`.  A
middleware `AttributeError` propagates out of `process`, hence the
`Except`.  `fuel` counts remaining iterations of
`range(max_iterations)` with `max_iterations = 15`. -/
def processLoop (hasWs : Bool)
    (parse : String → Option (List (String × PyVal)))
    (clean : String → String) (provider : String)
    (llm : Nat → String) (execText : Nat → String) :
    Nat → Nat → List ToolResultM → String →
    Except PyErr ProcessResultM
  | 0, _, acc, lastResp =>
    .ok (buildResponse
      ("I've completed 15 tool operations. Here's what I found:\n\n" ++
        clean lastResp) acc 15)
  | fuel + 1, i, acc, _ =>
    let response := llm i
    if response = "" then
      .ok (buildResponse
        ("Failed to get response from " ++ provider ++
          " - no response received") acc i)
    else
      match extractToolCall parse response with
      | some tc =>
        match normalizeToolCall hasWs tc with
        | .error e => .error e
        | .ok (norm, warns) =>
          let normD := match norm with
            | .dict d => d
            | _ => []
          let toolName := match pyGet normD "tool" (.str "unknown") with
            | .str s => s
            | _ => "unknown"
          let toolArgs := pyGet normD "args" (.dict [])
          let text := execText i
          processLoop hasWs parse clean provider llm execText fuel (i + 1)
            (acc ++ [{ tool := toolName, args := toolArgs, result := text
                       status := statusOf text, warnings := warns }])
            response
      | Option.none =>
        .ok (buildResponse (clean response) acc (i + 1))

/-- `AgentLoop.process` in agent mode: up to 15 iterations starting
from an empty result list. -/
def processAgent (hasWs : Bool)
    (parse : String → Option (List (String × PyVal)))
    (clean : String → String) (provider : String)
    (llm : Nat → String) (execText : Nat → String) :
    Except PyErr ProcessResultM :=
  processLoop hasWs parse clean provider llm execText 15 0 [] ""

/-! ## Claims -/

/-- The `tool` value of a mapping, when present, is a string (absent
keys fall back to `""` and are fine; non-mappings never reach
`.lower()`). -/
def toolValueIsStr (tc : PyVal) : Bool :=
  match tc with
  | .dict d =>
    match pyLookup d "tool" with
    | some (.str _) => true
    | some _ => false
    | Option.none => true
  | _ => true

/-- C1 (counterexample): on the mapping `{"tool": 42}` — a mapping
whose `tool` value is not a string — `normalize_tool_call` raises
`AttributeError` at `.lower()` instead of returning a
(normalized call, warnings) pair, refuting the claim that it never
raises on such inputs. -/
theorem C1_counterexample :
    normalizeToolCall true (.dict [("tool", .int 42)]) =
      .error (.attributeError "lower") := rfl

/-- C1 (amended): for every input value whose `tool` entry, when the
input is a mapping that has one, is a string — including non-mapping
inputs, mappings with no `tool` key, and mappings whose `args` value is
not a mapping — `normalize_tool_call` returns a
(normalized call, warnings) pair and does not raise; but a mapping
whose `tool` value is present and not a string raises `AttributeError`. -/
theorem C1_normalize_total (hasWs : Bool) (tc : PyVal)
    (h : toolValueIsStr tc = true) :
    ∃ out, normalizeToolCall hasWs tc = .ok out := by
  cases tc with
  | dict d =>
    have hg : ∃ s, pyGet d "tool" (.str "") = PyVal.str s := by
      unfold pyGet
      cases hv : pyLookup d "tool" with
      | none => exact ⟨"", rfl⟩
      | some v =>
        cases v with
        | str s => exact ⟨s, rfl⟩
        | none => simp [toolValueIsStr, hv] at h
        | bool b => simp [toolValueIsStr, hv] at h
        | int n => simp [toolValueIsStr, hv] at h
        | list xs => simp [toolValueIsStr, hv] at h
        | dict d2 => simp [toolValueIsStr, hv] at h
    obtain ⟨s, hs⟩ := hg
    simp only [normalizeToolCall, hs]
    split
    · exact ⟨_, rfl⟩
    · exact ⟨_, rfl⟩
  | none => exact ⟨_, rfl⟩
  | bool b => exact ⟨_, rfl⟩
  | int n => exact ⟨_, rfl⟩
  | str s => exact ⟨_, rfl⟩
  | list xs => exact ⟨_, rfl⟩

/-- C1 (witness): a concrete well-formed call goes through
`C1_normalize_total`. -/
theorem C1_witness :
    ∃ out,
      normalizeToolCall true
        (.dict [("tool", .str "read_file"),
                ("args", .dict [("path", .str "a.txt")])]) = .ok out :=
  C1_normalize_total true _ rfl

/-! ### C6: sanitization idempotence -/

/-- Shape of every part the sanitizer keeps: nonempty, free of `/`,
`\`, and null bytes, and neither `.` nor `..`. -/
def CleanPart (x : List Char) : Prop :=
  x ≠ [] ∧ '/' ∉ x ∧ '\\' ∉ x ∧ '\x00' ∉ x ∧ x ≠ ['.'] ∧ x ≠ ['.', '.']

theorem splitSlash_ne_nil (l : List Char) : splitSlash l ≠ [] := by
  induction l with
  | nil => simp [splitSlash]
  | cons c rest ih =>
    simp only [splitSlash]
    split
    · simp
    · cases h : splitSlash rest with
      | nil => exact absurd h ih
      | cons t ts => simp [h]

theorem mem_splitSlash :
    ∀ l : List Char, ∀ x ∈ splitSlash l, ∀ c ∈ x, c ∈ l ∧ c ≠ '/' := by
  intro l
  induction l with
  | nil =>
    intro x hx c hc
    simp [splitSlash] at hx
    subst hx
    simp at hc
  | cons a rest ih =>
    intro x hx c hc
    simp only [splitSlash] at hx
    by_cases ha : a = '/'
    · rw [if_pos ha] at hx
      rcases List.mem_cons.1 hx with hx | hx
      · subst hx; simp at hc
      · obtain ⟨h1, h2⟩ := ih x hx c hc
        exact ⟨List.mem_cons_of_mem _ h1, h2⟩
    · rw [if_neg ha] at hx
      rcases hsp : splitSlash rest with _ | ⟨t, ts⟩
      · exact absurd hsp (splitSlash_ne_nil rest)
      · rw [hsp] at hx
        rcases List.mem_cons.1 hx with hx | hx
        · subst hx
          rcases List.mem_cons.1 hc with hc | hc
          · subst hc; exact ⟨List.mem_cons_self _ _, ha⟩
          · have ht : t ∈ splitSlash rest := by
              rw [hsp]; exact List.mem_cons_self _ _
            obtain ⟨h1, h2⟩ := ih t ht c hc
            exact ⟨List.mem_cons_of_mem _ h1, h2⟩
        · have hts : x ∈ splitSlash rest := by
            rw [hsp]; exact List.mem_cons_of_mem _ hx
          obtain ⟨h1, h2⟩ := ih x hts c hc
          exact ⟨List.mem_cons_of_mem _ h1, h2⟩

theorem splitSlash_no_slash (p : List Char) (hp : '/' ∉ p) :
    splitSlash p = [p] := by
  induction p with
  | nil => rfl
  | cons c rest ih =>
    have hc : c ≠ '/' := fun h => hp (h ▸ List.mem_cons_self _ _)
    have hrest : '/' ∉ rest := fun h => hp (List.mem_cons_of_mem _ h)
    simp only [splitSlash, if_neg hc, ih hrest]

theorem splitSlash_append :
    ∀ (p rest : List Char), '/' ∉ p →
      splitSlash (p ++ '/' :: rest) = p :: splitSlash rest
  | [], rest, _ => by simp [splitSlash]
  | c :: p', rest, hp => by
    have hc : c ≠ '/' := fun h => hp (h ▸ List.mem_cons_self _ _)
    have hp' : '/' ∉ p' := fun h => hp (List.mem_cons_of_mem _ h)
    have ih := splitSlash_append p' rest hp'
    rw [List.cons_append]
    show (if c = '/' then [] :: splitSlash (p' ++ '/' :: rest)
          else
            match splitSlash (p' ++ '/' :: rest) with
            | t :: ts => (c :: t) :: ts
            | [] => [[c]]) = (c :: p') :: splitSlash rest
    rw [if_neg hc, ih]

theorem splitSlash_joinSlash (parts : List (List Char)) (hne : parts ≠ [])
    (h : ∀ x ∈ parts, x ≠ [] ∧ '/' ∉ x) :
    splitSlash (joinSlash parts) = parts := by
  induction parts with
  | nil => cases hne rfl
  | cons p ps ih =>
    cases ps with
    | nil => simpa [joinSlash] using splitSlash_no_slash p (h p (by simp)).2
    | cons q qs =>
      have hj : joinSlash (p :: q :: qs) = p ++ '/' :: joinSlash (q :: qs) :=
        rfl
      rw [hj, splitSlash_append p _ (h p (by simp)).2,
        ih (by simp) (fun x hx => h x (List.mem_cons_of_mem _ hx))]

theorem mem_joinSlash (parts : List (List Char)) (c : Char)
    (hc : c ∈ joinSlash parts) : c = '/' ∨ ∃ x ∈ parts, c ∈ x := by
  induction parts with
  | nil => simp [joinSlash] at hc
  | cons p ps ih =>
    cases ps with
    | nil => exact Or.inr ⟨p, by simp, hc⟩
    | cons q qs =>
      have hj : joinSlash (p :: q :: qs) = p ++ '/' :: joinSlash (q :: qs) :=
        rfl
      rw [hj] at hc
      rcases List.mem_append.1 hc with hp | hr
      · exact Or.inr ⟨p, by simp, hp⟩
      · rcases List.mem_cons.1 hr with hr | hr
        · exact Or.inl hr
        · rcases ih hr with hr | ⟨x, hx, hcx⟩
          · exact Or.inl hr
          · exact Or.inr ⟨x, List.mem_cons_of_mem _ hx, hcx⟩

theorem joinSlash_head (p : List Char) (ps : List (List Char))
    (hp : p ≠ []) : (joinSlash (p :: ps)).head? = p.head? := by
  cases ps with
  | nil => rfl
  | cons q qs =>
    cases p with
    | nil => exact absurd rfl hp
    | cons c p' => rfl

theorem joinSlash_ne_nil (parts : List (List Char)) (hne : parts ≠ [])
    (h : ∀ x ∈ parts, x ≠ []) : joinSlash parts ≠ [] := by
  cases parts with
  | nil => cases hne rfl
  | cons p ps =>
    cases ps with
    | nil => exact h p (by simp)
    | cons q qs =>
      have hp := h p (by simp)
      cases p with
      | nil => exact absurd rfl hp
      | cons c p' => simp [joinSlash]

theorem head?_mem {c : Char} {l : List Char} (h : l.head? = some c) :
    c ∈ l := by
  cases l with
  | nil => cases h
  | cons a t =>
    injection h with h
    subst h
    exact List.mem_cons_self _ _

/-- Absence of two consecutive slashes. -/
def noDoubleSlash : List Char → Bool
  | [] => true
  | a :: rest =>
    match rest with
    | [] => true
    | b :: _ => if a = '/' ∧ b = '/' then false else noDoubleSlash rest

theorem noDoubleSlash_tail (a : Char) (rest : List Char)
    (h : noDoubleSlash (a :: rest) = true) : noDoubleSlash rest = true := by
  cases rest with
  | nil => rfl
  | cons b t =>
    by_cases hab : a = '/' ∧ b = '/'
    · simp only [noDoubleSlash, if_pos hab] at h
      cases h
    · simpa only [noDoubleSlash, if_neg hab] using h

theorem noDoubleSlash_head (rest : List Char)
    (h : noDoubleSlash ('/' :: rest) = true) :
    ∀ c, rest.head? = some c → c ≠ '/' := by
  intro c hc hcs
  cases rest with
  | nil => cases hc
  | cons b t =>
    injection hc with hc
    subst hc
    subst hcs
    simp only [noDoubleSlash, if_pos (And.intro rfl rfl)] at h
    cases h

theorem noDoubleSlash_cons_of_ne (c : Char) (l : List Char)
    (hc : c ≠ '/') : noDoubleSlash (c :: l) = noDoubleSlash l := by
  cases l with
  | nil => rfl
  | cons b t =>
    have : ¬ (c = '/' ∧ b = '/') := fun h => hc h.1
    simp only [noDoubleSlash, if_neg this]

theorem noDoubleSlash_of_no_slash (p : List Char) (hp : '/' ∉ p) :
    noDoubleSlash p = true := by
  induction p with
  | nil => rfl
  | cons c rest ih =>
    have hc : c ≠ '/' := fun h => hp (h ▸ List.mem_cons_self _ _)
    rw [noDoubleSlash_cons_of_ne c rest hc]
    exact ih (fun h => hp (List.mem_cons_of_mem _ h))

theorem collapseSlashes_id :
    ∀ (l : List Char) (b : Bool), noDoubleSlash l = true →
      (b = true → ∀ c, l.head? = some c → c ≠ '/') →
      collapseSlashes b l = l
  | [], _, _, _ => rfl
  | c :: rest, b, hnd, hb => by
    by_cases hc : c = '/'
    · have hbf : b = false := by
        cases b with
        | false => rfl
        | true => exact absurd hc (hb rfl c (by rw [List.head?_cons]))
      subst hbf
      subst hc
      show '/' :: collapseSlashes true rest = '/' :: rest
      rw [collapseSlashes_id rest true (noDoubleSlash_tail _ _ hnd)
        (fun _ => noDoubleSlash_head rest hnd)]
    · show (if c = '/' then
              (if b then collapseSlashes true rest
               else '/' :: collapseSlashes true rest)
            else c :: collapseSlashes false rest) = c :: rest
      rw [if_neg hc,
        collapseSlashes_id rest false (noDoubleSlash_tail _ _ hnd)
          (fun h => by cases h)]

theorem mem_collapseSlashes :
    ∀ (l : List Char) (b : Bool) (c : Char),
      c ∈ collapseSlashes b l → c ∈ l
  | [], _, c, hc => by simp [collapseSlashes] at hc
  | a :: rest, b, c, hc => by
    by_cases ha : a = '/'
    · subst ha
      cases b with
      | true =>
        have : c ∈ collapseSlashes true rest := by
          simpa only [collapseSlashes, if_pos rfl, if_pos rfl] using hc
        exact List.mem_cons_of_mem _ (mem_collapseSlashes rest true c this)
      | false =>
        have : c ∈ '/' :: collapseSlashes true rest := by
          simpa only [collapseSlashes, if_pos rfl] using hc
        rcases List.mem_cons.1 this with h | h
        · subst h; exact List.mem_cons_self _ _
        · exact List.mem_cons_of_mem _ (mem_collapseSlashes rest true c h)
    · have : c ∈ a :: collapseSlashes false rest := by
        simpa only [collapseSlashes, if_neg ha] using hc
      rcases List.mem_cons.1 this with h | h
      · subst h; exact List.mem_cons_self _ _
      · exact List.mem_cons_of_mem _ (mem_collapseSlashes rest false c h)

theorem noDoubleSlash_append_slash (p q : List Char) (hp : '/' ∉ p)
    (hq : noDoubleSlash q = true)
    (hqh : ∀ c, q.head? = some c → c ≠ '/') :
    noDoubleSlash (p ++ '/' :: q) = true := by
  induction p with
  | nil =>
    cases q with
    | nil => rfl
    | cons b t =>
      have hb : b ≠ '/' := hqh b rfl
      have hcond : ¬ ('/' = '/' ∧ b = '/') := fun h => hb h.2
      show (if ('/' = '/' ∧ b = '/') then false
            else noDoubleSlash (b :: t)) = true
      rw [if_neg hcond]
      exact hq
  | cons c p' ih =>
    have hc : c ≠ '/' := fun h => hp (h ▸ List.mem_cons_self _ _)
    rw [List.cons_append, noDoubleSlash_cons_of_ne c _ hc]
    exact ih (fun h => hp (List.mem_cons_of_mem _ h))

theorem joinSlash_noDoubleSlash (parts : List (List Char))
    (h : ∀ x ∈ parts, x ≠ [] ∧ '/' ∉ x) :
    noDoubleSlash (joinSlash parts) = true := by
  induction parts with
  | nil => rfl
  | cons p ps ih =>
    cases ps with
    | nil => exact noDoubleSlash_of_no_slash p (h p (by simp)).2
    | cons q qs =>
      have hj : joinSlash (p :: q :: qs) = p ++ '/' :: joinSlash (q :: qs) :=
        rfl
      rw [hj]
      refine noDoubleSlash_append_slash p _ (h p (by simp)).2
        (ih (fun x hx => h x (List.mem_cons_of_mem _ hx))) ?_
      intro c hc
      rw [joinSlash_head q qs (h q (by simp)).1] at hc
      exact fun hcs =>
        (h q (by simp)).2 (hcs ▸ head?_mem hc)

theorem mem_foldl_sanitizeFoldStep :
    ∀ (parts : List (List Char)) (acc : List (List Char)) (x : List Char),
      x ∈ parts.foldl sanitizeFoldStep acc →
      x ∈ acc ∨ (x ∈ parts ∧ x ≠ [] ∧ x ≠ ['.'] ∧ x ≠ ['.', '.']) := by
  intro parts
  induction parts with
  | nil => intro acc x hx; exact Or.inl hx
  | cons p ps ih =>
    intro acc x hx
    rw [List.foldl_cons] at hx
    rcases ih _ x hx with hacc | hps
    · unfold sanitizeFoldStep at hacc
      by_cases h1 : p = ['.', '.']
      · rw [if_pos h1] at hacc
        exact Or.inl ((List.dropLast_sublist acc).subset hacc)
      · rw [if_neg h1] at hacc
        by_cases h2 : p ≠ [] ∧ p ≠ ['.']
        · rw [if_pos h2] at hacc
          rcases List.mem_append.1 hacc with h | h
          · exact Or.inl h
          · have hxp : x = p := by simpa using h
            subst hxp
            exact Or.inr ⟨List.mem_cons_self _ _, h2.1, h2.2, h1⟩
        · rw [if_neg h2] at hacc
          exact Or.inl hacc
    · exact Or.inr ⟨List.mem_cons_of_mem _ hps.1, hps.2⟩

theorem foldl_sanitizeFoldStep_clean :
    ∀ (parts : List (List Char)),
      (∀ x ∈ parts, x ≠ [] ∧ x ≠ ['.'] ∧ x ≠ ['.', '.']) →
      ∀ acc, parts.foldl sanitizeFoldStep acc = acc ++ parts := by
  intro parts
  induction parts with
  | nil => intro _ acc; simp
  | cons p ps ih =>
    intro h acc
    obtain ⟨h1, h2, h3⟩ := h p (by simp)
    rw [List.foldl_cons]
    have hstep : sanitizeFoldStep acc p = acc ++ [p] := by
      unfold sanitizeFoldStep
      rw [if_neg h3, if_pos ⟨h1, h2⟩]
    rw [hstep, ih (fun x hx => h x (List.mem_cons_of_mem _ hx)) (acc ++ [p])]
    simp

theorem filter_null_id (l : List Char) (h : ∀ c ∈ l, c ≠ '\x00') :
    l.filter (fun c => c ≠ '\x00') = l := by
  rw [List.filter_eq_self]
  intro a ha
  simpa using h a ha

theorem map_backslash_id (l : List Char) (h : ∀ c ∈ l, c ≠ '\\') :
    l.map (fun c => if c = '\\' then '/' else c) = l := by
  have := List.map_congr_left (l := l)
    (f := fun c => if c = '\\' then '/' else c) (g := id)
    (fun a ha => by simp [if_neg (h a ha)])
  simpa using this

theorem dropWhile_slash_id (l : List Char)
    (h : ∀ c, l.head? = some c → c ≠ '/') :
    l.dropWhile (fun c => c = '/') = l := by
  cases l with
  | nil => rfl
  | cons c rest =>
    have hc : c ≠ '/' := h c rfl
    simp [List.dropWhile_cons, hc]

/-- Every part the sanitizer keeps is a clean part. -/
theorem sanitizeParts_clean (ws : Bool) (p : List Char) :
    ∀ x ∈ sanitizeParts ws p, CleanPart x := by
  intro x hx
  unfold sanitizeParts at hx
  rcases mem_foldl_sanitizeFoldStep _ [] x hx with h | ⟨hsp, hne, hdot, hdd⟩
  · simp at h
  · have hchars : ∀ c ∈ x, c ∈ sanitizePre ws p ∧ c ≠ '/' :=
      fun c hc => mem_splitSlash _ x hsp c hc
    have hpre : ∀ c ∈ sanitizePre ws p, c ≠ '\\' ∧ c ≠ '\x00' := by
      intro c hc
      unfold sanitizePre at hc
      have hc2 := mem_collapseSlashes _ false c hc
      have hmem : c ∈ (p.filter (fun c => c ≠ '\x00')).map
          (fun c => if c = '\\' then '/' else c) := by
        cases ws with
        | true => exact (List.dropWhile_sublist _).subset hc2
        | false => exact hc2
      rcases List.mem_map.1 hmem with ⟨o, ho, hoc⟩
      by_cases hob : o = '\\'
      · rw [if_pos hob] at hoc
        subst hoc
        refine ⟨by decide, by decide⟩
      · rw [if_neg hob] at hoc
        subst hoc
        exact ⟨hob, by simpa using List.of_mem_filter ho⟩
    refine ⟨hne, ?_, ?_, ?_, hdot, hdd⟩
    · exact fun h => (hchars '/' h).2 rfl
    · exact fun h => (hpre '\\' (hchars '\\' h).1).1 rfl
    · exact fun h => (hpre '\x00' (hchars '\x00' h).1).2 rfl

/-- `sanitizePath` output is either `"."` or the join of its (clean,
nonempty) kept parts. -/
theorem sanitizePath_cases (ws : Bool) (p : List Char) :
    sanitizePath ws p = ['.'] ∨
      (sanitizeParts ws p ≠ [] ∧
        sanitizePath ws p = joinSlash (sanitizeParts ws p)) := by
  unfold sanitizePath
  cases hsp : sanitizeParts ws p with
  | nil => left; simp [joinSlash]
  | cons s ss =>
    right
    refine ⟨by simp, ?_⟩
    have hnn : joinSlash (s :: ss) ≠ [] := by
      refine joinSlash_ne_nil _ (by simp) ?_
      intro x hx
      exact (sanitizeParts_clean ws p x (by rw [hsp]; exact hx)).1
    simp [hnn]

/-- Sanitizing the join of clean parts gives it back unchanged. -/
theorem sanitizePath_joinSlash (ws : Bool) (safe : List (List Char))
    (hne : safe ≠ []) (hclean : ∀ x ∈ safe, CleanPart x) :
    sanitizePath ws (joinSlash safe) = joinSlash safe := by
  have hnn : ∀ c ∈ joinSlash safe, c ≠ '\x00' ∧ c ≠ '\\' := by
    intro c hc
    rcases mem_joinSlash safe c hc with h | ⟨x, hx, hcx⟩
    · subst h; exact ⟨by decide, by decide⟩
    · obtain ⟨_, _, h3, h4, _, _⟩ := hclean x hx
      exact ⟨fun hh => h4 (hh ▸ hcx), fun hh => h3 (hh ▸ hcx)⟩
  have hhead : ∀ c, (joinSlash safe).head? = some c → c ≠ '/' := by
    cases safe with
    | nil => cases hne rfl
    | cons s ss =>
      intro c hc
      rw [joinSlash_head s ss (hclean s (by simp)).1] at hc
      exact fun hcs => (hclean s (by simp)).2.1 (hcs ▸ head?_mem hc)
  have hxne : ∀ x ∈ safe, x ≠ [] ∧ '/' ∉ x :=
    fun x hx => ⟨(hclean x hx).1, (hclean x hx).2.1⟩
  have hpre : sanitizePre ws (joinSlash safe) = joinSlash safe := by
    unfold sanitizePre
    rw [filter_null_id _ (fun c hc => (hnn c hc).1),
      map_backslash_id _ (fun c hc => (hnn c hc).2)]
    have hcoll := collapseSlashes_id (joinSlash safe) false
      (joinSlash_noDoubleSlash safe hxne) (fun h => by cases h)
    cases ws with
    | true => rw [if_pos rfl, dropWhile_slash_id _ hhead, hcoll]
    | false => rw [if_neg (by simp), hcoll]
  have hparts : sanitizeParts ws (joinSlash safe) = safe := by
    unfold sanitizeParts
    rw [hpre, splitSlash_joinSlash safe hne hxne]
    simpa using foldl_sanitizeFoldStep_clean safe
      (fun x hx =>
        ⟨(hclean x hx).1, (hclean x hx).2.2.2.2.1, (hclean x hx).2.2.2.2.2⟩)
      []
  unfold sanitizePath
  rw [hparts,
    if_neg (joinSlash_ne_nil safe hne (fun x hx => (hclean x hx).1))]

/-- C6: path sanitization is idempotent, and
`sanitize("../../etc/passwd")` is `"etc/passwd"` — the leading `..`
segments are dropped rather than escaping the root. -/
theorem C6_sanitize_idempotent :
    (∀ (ws : Bool) (p : List Char),
      sanitizePath ws (sanitizePath ws p) = sanitizePath ws p) ∧
    sanitizePathStr "../../etc/passwd" = "etc/passwd" := by
  constructor
  · intro ws p
    rcases sanitizePath_cases ws p with h | ⟨hne, h⟩
    · rw [h]
      cases ws with
      | true => rfl
      | false => rfl
    · rw [h]
      exact sanitizePath_joinSlash ws _ hne (sanitizeParts_clean ws p)
  · rfl

/-- C5 (counterexample): the path `"a\x00b"` is neither empty nor `.`;
`resolve()` runs outside the `try` of `_resolve_path` and raises
`ValueError: embedded null byte`, refuting the claim that path
resolution returns without raising for every input path string. -/
theorem C5_counterexample :
    agentResolvePath ["home", "user"] "a\x00b" =
      .error (.valueError "embedded null byte") := rfl

/-- C5 (amended): for every input path string that contains no null
byte and every workspace root, `_resolve_path` returns without raising
and the returned absolute path lies within the workspace root (the
workspace components are a prefix of the result); whenever the resolved
path falls outside the workspace root, the workspace root itself is
returned in its place.  A path with an embedded null byte instead
raises `ValueError` at `resolve()`, which sits outside the `try`. -/
theorem C5_resolve_path_contained (ws : List String) (p : String)
    (hnull : '\x00' ∉ p.data) :
    (∃ r, agentResolvePath ws p = .ok r ∧ ws.isPrefixOf r = true) ∧
    (ws.isPrefixOf (resolvedOf ws p) = false →
      agentResolvePath ws p = .ok ws) := by
  unfold agentResolvePath
  by_cases hp : p = "" ∨ p = "."
  · rw [if_pos hp]
    refine ⟨⟨ws, rfl, ?_⟩, fun _ => rfl⟩
    rw [List.isPrefixOf_iff_prefix]
  · rw [if_neg hp, if_neg hnull]
    by_cases hpre : ws.isPrefixOf (resolvedOf ws p) = true
    · rw [if_pos hpre]
      exact ⟨⟨resolvedOf ws p, rfl, hpre⟩,
        fun hf => by rw [hpre] at hf; cases hf⟩
    · rw [if_neg hpre]
      refine ⟨⟨ws, rfl, ?_⟩, fun _ => rfl⟩
      rw [List.isPrefixOf_iff_prefix]

/-- C5 (witness): the null-free `"../../etc/passwd"` resolves outside
the workspace `["home", "user"]` and the workspace itself is
substituted. -/
theorem C5_witness :
    agentResolvePath ["home", "user"] "../../etc/passwd" =
      .ok ["home", "user"] :=
  (C5_resolve_path_contained ["home", "user"] "../../etc/passwd"
    (by decide)).2 (by decide)

/-! ### Tracker lemmas for C7 and C10 -/

theorem trLookup_append_none (fs : List (String × TrackedFileM))
    (n : String) (e : TrackedFileM) (h : trLookup fs n = Option.none) :
    trLookup (fs ++ [(n, e)]) n = some e := by
  induction fs with
  | nil => simp [trLookup]
  | cons kv rest ih =>
    by_cases hk : kv.1 = n
    · rw [show trLookup (kv :: rest) n =
          (if kv.1 = n then some kv.2 else trLookup rest n) from by
            cases kv; rfl, if_pos hk] at h
      cases h
    · rw [show trLookup ((kv :: rest) ++ [(n, e)]) n =
          (if kv.1 = n then some kv.2 else trLookup (rest ++ [(n, e)]) n)
          from by cases kv; rfl, if_neg hk]
      refine ih ?_
      rwa [show trLookup (kv :: rest) n =
          (if kv.1 = n then some kv.2 else trLookup rest n) from by
            cases kv; rfl, if_neg hk] at h

theorem trLookup_trUpdate (fs : List (String × TrackedFileM)) (n : String)
    (f : TrackedFileM → TrackedFileM) :
    trLookup (trUpdate fs n f) n = (trLookup fs n).map f := by
  induction fs with
  | nil => rfl
  | cons kv rest ih =>
    by_cases hk : kv.1 = n
    · simp only [trUpdate, List.map_cons, if_pos hk]
      rw [show trLookup ((kv.1, f kv.2) :: List.map _ rest) n =
          (if kv.1 = n then some (f kv.2) else
            trLookup (List.map (fun kv =>
              if kv.1 = n then (kv.1, f kv.2) else kv) rest) n) from rfl,
        if_pos hk,
        show trLookup (kv :: rest) n =
          (if kv.1 = n then some kv.2 else trLookup rest n) from by
            cases kv; rfl, if_pos hk]
      rfl
    · simp only [trUpdate, List.map_cons, if_neg hk]
      rw [show trLookup (kv :: List.map _ rest) n =
          (if kv.1 = n then some kv.2 else
            trLookup (List.map (fun kv =>
              if kv.1 = n then (kv.1, f kv.2) else kv) rest) n) from by
            cases kv; rfl, if_neg hk,
        show trLookup (kv :: rest) n =
          (if kv.1 = n then some kv.2 else trLookup rest n) from by
            cases kv; rfl, if_neg hk]
      exact ih

theorem trLookup_mem (fs : List (String × TrackedFileM)) (n : String)
    (t : TrackedFileM) (h : trLookup fs n = some t) : (n, t) ∈ fs := by
  induction fs with
  | nil => cases h
  | cons kv rest ih =>
    rw [show trLookup (kv :: rest) n =
        (if kv.1 = n then some kv.2 else trLookup rest n) from by
          cases kv; rfl] at h
    by_cases hk : kv.1 = n
    · rw [if_pos hk] at h
      injection h with h
      have hkv : kv = (n, t) := by
        cases kv
        simp_all
      rw [← hkv]
      exact List.mem_cons_self _ _
    · rw [if_neg hk] at h
      exact List.mem_cons_of_mem _ (ih h)

/-- `record_read` on an untracked path of an enabled tracker appends a
fresh entry capturing the original content. -/
theorem recordRead_absent (st : TrackerState) (p c : String)
    (hen : st.enabled = true)
    (h : trLookup st.files (trNormalizePath p) = Option.none) :
    recordRead st p c true =
      { st with
          files := st.files ++
            [(trNormalizePath p,
              { path := trNormalizePath p, original_content := some c
                exists_originally := true })] } := by
  simp only [recordRead, hen, h, Option.isSome_none, reduceIte]
  simp

/-- `record_write` on a tracked path of an enabled tracker updates the
entry's new content in place. -/
theorem recordWrite_present (st : TrackerState) (p c : String)
    (t : TrackedFileM) (hen : st.enabled = true)
    (h : trLookup st.files (trNormalizePath p) = some t) :
    recordWrite st p c =
      { st with
          files := trUpdate st.files (trNormalizePath p)
            (fun u => { u with new_content := some c }) } := by
  simp only [recordWrite, hen, h, Option.isSome_some, reduceIte]
  simp

/-- `record_write` on an untracked path of an enabled tracker appends a
fresh entry marked as not originally existing. -/
theorem recordWrite_absent (st : TrackerState) (p c : String)
    (hen : st.enabled = true)
    (h : trLookup st.files (trNormalizePath p) = Option.none) :
    recordWrite st p c =
      { st with
          files := st.files ++
            [(trNormalizePath p,
              { path := trNormalizePath p, new_content := some c
                exists_originally := false })] } := by
  simp only [recordWrite, hen, h, Option.isSome_none, reduceIte]
  simp

/-- `record_delete` on a tracked path of an enabled tracker clears the
entry's new content in place. -/
theorem recordDelete_present (st : TrackerState) (p : String)
    (t : TrackedFileM) (hen : st.enabled = true)
    (h : trLookup st.files (trNormalizePath p) = some t) :
    recordDelete st p =
      { st with
          files := trUpdate st.files (trNormalizePath p)
            (fun u => { u with new_content := Option.none }) } := by
  simp only [recordDelete, hen, h, Option.isSome_some, reduceIte]
  simp

/-- `record_delete` on an untracked path of an enabled tracker appends
an entry with no content on either side. -/
theorem recordDelete_absent (st : TrackerState) (p : String)
    (hen : st.enabled = true)
    (h : trLookup st.files (trNormalizePath p) = Option.none) :
    recordDelete st p =
      { st with
          files := st.files ++
            [(trNormalizePath p,
              { path := trNormalizePath p, exists_originally := true })] } := by
  simp only [recordDelete, hen, h, Option.isSome_none, reduceIte]
  simp

/-- C7: in the file change tracker, a read of existing content followed
by a write of different content classifies the tracked file as
`modify`; a write alone on an unobserved path classifies it as
`create`; and `generate_diff` returns `None` whenever the recorded
original and new contents are identical (including untracked paths). -/
theorem C7_tracker_classification :
    (∀ (st : TrackerState) (p c c' : String),
      st.enabled = true →
      trLookup st.files (trNormalizePath p) = Option.none →
      c ≠ c' →
      ∃ t, trLookup (recordWrite (recordRead st p c true) p c').files
          (trNormalizePath p) = some t ∧ t.operation = "modify") ∧
    (∀ (st : TrackerState) (p c : String),
      st.enabled = true →
      trLookup st.files (trNormalizePath p) = Option.none →
      ∃ t, trLookup (recordWrite st p c).files (trNormalizePath p) = some t ∧
        t.operation = "create") ∧
    (∀ (st : TrackerState) (p : String),
      (∀ t, trLookup st.files (trNormalizePath p) = some t →
        t.original_content = t.new_content) →
      generateDiff st p = Option.none) := by
  refine ⟨?_, ?_, ?_⟩
  · intro st p c c' hen hnone hcc
    have hst1 := recordRead_absent st p c hen hnone
    have hlook1 : trLookup (recordRead st p c true).files (trNormalizePath p) =
        some { path := trNormalizePath p, original_content := some c
               exists_originally := true } := by
      rw [hst1]
      exact trLookup_append_none _ _ _ hnone
    have hen1 : (recordRead st p c true).enabled = true := by
      rw [hst1]
      exact hen
    have hst2 := recordWrite_present (recordRead st p c true) p c' _ hen1 hlook1
    refine ⟨{ path := trNormalizePath p, original_content := some c
              new_content := some c', exists_originally := true }, ?_, ?_⟩
    · rw [hst2]
      dsimp only
      rw [trLookup_trUpdate, hlook1]
      rfl
    · simp [TrackedFileM.operation, TrackedFileM.has_changes, hcc]
  · intro st p c hen hnone
    have hst := recordWrite_absent st p c hen hnone
    refine ⟨{ path := trNormalizePath p, new_content := some c
              exists_originally := false }, ?_, ?_⟩
    · rw [hst]
      exact trLookup_append_none _ _ _ hnone
    · simp [TrackedFileM.operation, TrackedFileM.has_changes]
  · intro st p h
    cases hl : trLookup st.files (trNormalizePath p) with
    | none => simp [generateDiff, hl]
    | some t =>
      have heq := h t hl
      simp [generateDiff, hl, TrackedFileM.has_changes, heq]

/-- C7 (witness): the three parts at an empty enabled tracker with
concrete contents. -/
theorem C7_witness :
    (∃ t, trLookup (recordWrite (recordRead ⟨[], true⟩ "a.txt" "x" true)
        "a.txt" "y").files (trNormalizePath "a.txt") = some t ∧
        t.operation = "modify") ∧
    (∃ t, trLookup (recordWrite ⟨[], true⟩ "b.txt" "z").files
        (trNormalizePath "b.txt") = some t ∧ t.operation = "create") ∧
    generateDiff ⟨[], true⟩ "c.txt" = Option.none := by
  refine ⟨?_, ?_, ?_⟩
  · exact C7_tracker_classification.1 ⟨[], true⟩ "a.txt" "x" "y" rfl rfl
      (by decide)
  · exact C7_tracker_classification.2.1 ⟨[], true⟩ "b.txt" "z" rfl rfl
  · exact C7_tracker_classification.2.2 ⟨[], true⟩ "c.txt"
      (fun t ht => by cases ht)

theorem trUpdate_id (fs : List (String × TrackedFileM)) (n : String)
    (f : TrackedFileM → TrackedFileM)
    (h : ∀ kv ∈ fs, kv.1 = n → f kv.2 = kv.2) : trUpdate fs n f = fs := by
  unfold trUpdate
  have hcg := List.map_congr_left (l := fs)
    (f := fun kv => if kv.1 = n then (kv.1, f kv.2) else kv) (g := id)
    (fun kv hm => by
      dsimp only
      by_cases hk : kv.1 = n
      · rw [if_pos hk, h kv hm hk]
        rfl
      · rw [if_neg hk]
        rfl)
  simpa using hcg

theorem setNewContentNone_id (u : TrackedFileM)
    (h : u.new_content = Option.none) :
    { u with new_content := Option.none } = u := by
  cases u
  simp_all

/-- C10: `record_delete` on a path with no prior recorded content
creates (or leaves) a tracked entry whose derived operation is
`unchanged`; consequently the deletion appears in neither
`get_changes()` nor `get_summary()` (both are untouched), and
`generate_diff` for that path returns `None`. -/
theorem C10_delete_unobserved (st : TrackerState) (p : String)
    (hen : st.enabled = true)
    (hprior : ∀ kv ∈ st.files, kv.1 = trNormalizePath p →
      kv.2.original_content = Option.none ∧
      kv.2.new_content = Option.none) :
    (∃ t, trLookup (recordDelete st p).files (trNormalizePath p) = some t ∧
      t.operation = "unchanged") ∧
    getChanges (recordDelete st p) = getChanges st ∧
    getSummary (recordDelete st p) = getSummary st ∧
    generateDiff (recordDelete st p) p = Option.none := by
  cases hl : trLookup st.files (trNormalizePath p) with
  | none =>
    have hst := recordDelete_absent st p hen hl
    have hfresh : trLookup (recordDelete st p).files (trNormalizePath p) =
        some { path := trNormalizePath p, exists_originally := true } := by
      rw [hst]
      exact trLookup_append_none _ _ _ hl
    have hch : getChanges (recordDelete st p) = getChanges st := by
      rw [hst]
      unfold getChanges
      rw [List.filterMap_append]
      simp [TrackedFileM.has_changes, TrackedFileM.operation]
    refine ⟨⟨_, hfresh, by
      simp [TrackedFileM.operation, TrackedFileM.has_changes]⟩, hch, ?_, ?_⟩
    · unfold getSummary
      rw [hch]
    · simp [generateDiff, hfresh, TrackedFileM.has_changes]
  | some t =>
    obtain ⟨ho, hn⟩ := hprior (trNormalizePath p, t) (trLookup_mem _ _ _ hl) rfl
    dsimp only at ho hn
    have hst : recordDelete st p = st := by
      rw [recordDelete_present st p t hen hl,
        trUpdate_id _ _ _ (fun kv hm hk => by
          obtain ⟨_, hkn⟩ := hprior kv hm hk
          exact setNewContentNone_id kv.2 hkn)]
    rw [hst]
    refine ⟨⟨t, hl, ?_⟩, rfl, rfl, ?_⟩
    · simp [TrackedFileM.operation, TrackedFileM.has_changes, ho, hn]
    · simp [generateDiff, hl, TrackedFileM.has_changes, ho, hn]

/-- C10 (witness): deleting a never-observed path on a fresh enabled
tracker. -/
theorem C10_witness :
    (∃ t, trLookup (recordDelete ⟨[], true⟩ "gone.txt").files
        (trNormalizePath "gone.txt") = some t ∧
      t.operation = "unchanged") ∧
    getChanges (recordDelete ⟨[], true⟩ "gone.txt") = getChanges ⟨[], true⟩ ∧
    getSummary (recordDelete ⟨[], true⟩ "gone.txt") = getSummary ⟨[], true⟩ ∧
    generateDiff (recordDelete ⟨[], true⟩ "gone.txt") "gone.txt" =
      Option.none :=
  C10_delete_unobserved ⟨[], true⟩ "gone.txt" rfl
    (fun kv hm => absurd hm (List.not_mem_nil kv))

/-- C9: a raw tool call (mapping with a string tool name and a mapping
`args`) whose resolved name has no schema in the registry is passed
through: the returned `args` are the raw argument mapping itself, with
the pass-through warning appended — in particular no path sanitization
touches any argument value, whether or not a workspace is configured. -/
theorem C9_unknown_tool_passthrough (hasWs : Bool)
    (d : List (String × PyVal)) (t : String) (a : List (String × PyVal))
    (ht : pyLookup d "tool" = some (.str t))
    (ha : pyLookup d "args" = some (.dict a))
    (hs : findSchema (resolveToolName (pyStrip (pyLowerStr t))) =
      Option.none) :
    normalizeToolCall hasWs (.dict d) =
      .ok (.dict [("tool", .str (resolveToolName (pyStrip (pyLowerStr t)))),
                  ("args", .dict a)],
        (if resolveToolName (pyStrip (pyLowerStr t)) ≠ pyStrip (pyLowerStr t)
         then
           ["Tool '" ++ pyStrip (pyLowerStr t) ++ "' resolved to '" ++
             resolveToolName (pyStrip (pyLowerStr t)) ++ "'"]
         else []) ++
        ["Unknown tool '" ++ resolveToolName (pyStrip (pyLowerStr t)) ++
          "' - passing through"]) := by
  simp only [normalizeToolCall, pyGet, ht, ha, Option.getD_some, hs]

/-- C9 (witness): `"qqqq"` resolves to no schema (its fuzzy scan over
every registered name and alias fails) and its `/etc/passwd` argument
passes through unsanitized with a workspace configured. -/
theorem C9_witness :
    normalizeToolCall true
      (.dict [("tool", .str "qqqq"),
              ("args", .dict [("path", .str "/etc/passwd")])]) =
      .ok (.dict [("tool", .str "qqqq"),
                  ("args", .dict [("path", .str "/etc/passwd")])],
           ["Unknown tool 'qqqq' - passing through"]) := by
  have h := C9_unknown_tool_passthrough true
    [("tool", PyVal.str "qqqq"),
     ("args", PyVal.dict [("path", PyVal.str "/etc/passwd")])]
    "qqqq" [("path", PyVal.str "/etc/passwd")] rfl rfl rfl
  exact h

/-! ### C3: dispatch failure status -/

/-- A text built on the `Error:` marker is classified `error`. -/
theorem statusOf_error_append (rest : String) :
    statusOf ("Error:" ++ rest) = .error := by
  unfold statusOf
  rw [if_pos]
  rw [List.isPrefixOf_iff_prefix, String.data_append]
  exact List.prefix_append _ _

/-- A text whose first character is not `E` is classified `success`. -/
theorem statusOf_of_head (text : String) (c : Char)
    (hc : text.data.head? = some c) (hne : c ≠ 'E') :
    statusOf text = .success := by
  unfold statusOf
  rw [if_neg]
  intro h
  rw [List.isPrefixOf_iff_prefix] at h
  obtain ⟨tl, htl⟩ := h
  rw [← htl] at hc
  exact hne (by injection hc with hc; exact hc.symm)

/-- The tool names `_execute_tool` handles directly. -/
def builtinToolNames : List String :=
  ["list_tools", "read_tool", "run_command", "list_directory",
   "read_file", "write_file"]

/-- A neutral oracle: no file, no directory, no dynamic tool. -/
def oracleStub : ExecOracle :=
  { readOutcome := .notExists, writeOutcome := .ok, listOutcome := .notExists
    runStdout := "", runStderr := "", runCode := 0, customTools := []
    toolSrcExists := false, toolSrc := "", dynToolExists := false
    dynOutcome := .noAttr }

/-- C3 (counterexample): dispatching the unknown tool `frobnicate`
produces the result text `Tool 'frobnicate' not found. ...`, which does
not begin with `Error:`, so the recorded per-call status is `success`,
not `error` — refuting the claim that every dispatch failure is
recorded with `error` status. -/
theorem C3_counterexample :
    executeTool oracleStub "frobnicate" [] =
      "Tool 'frobnicate' not found. Use 'list_tools' to see available tools." ∧
    statusOf (executeTool oracleStub "frobnicate" []) = .success :=
  ⟨rfl, rfl⟩

/-- A prefix test against a target at least as long as the needle
ignores anything appended beyond it. -/
theorem isPrefixOf_append_of_le (needle pre rest : List Char)
    (h : needle.length ≤ pre.length) :
    needle.isPrefixOf (pre ++ rest) = needle.isPrefixOf pre := by
  induction needle generalizing pre with
  | nil => simp [List.isPrefixOf]
  | cons a as ih =>
    cases pre with
    | nil => simp at h
    | cons b bs =>
      show (a == b && as.isPrefixOf (bs ++ rest)) = (a == b && as.isPrefixOf bs)
      rw [ih bs (by simpa using h)]

/-- A text built on a literal at least six characters long that does
not itself start with `Error:` is classified `success`, whatever
follows. -/
theorem statusOf_catchall (pre msg : String)
    (hlen : "Error:".data.length ≤ pre.data.length)
    (hf : "Error:".data.isPrefixOf pre.data = false) :
    statusOf (pre ++ msg) = .success := by
  have hx : "Error:".data.isPrefixOf (pre ++ msg).data = false := by
    rw [String.data_append, isPrefixOf_append_of_le _ _ _ hlen, hf]
  unfold statusOf
  rw [hx]
  simp

/-- C3 (amended): the per-call status is `error` exactly when the
result text begins with the literal `Error:` marker; missing-required-
argument failures of the built-in file tools and `PermissionError`
filesystem failures produce `Error:`-prefixed texts and so are recorded
as `error`, but the catch-all filesystem exception handlers
(`Error reading file: ...`, `Error writing file: ...`,
`Error listing directory: ...`), an unknown-tool dispatch and a
dynamic-load exception produce texts without the marker and are
recorded as `success`. -/
theorem C3_status_classification :
    (∀ (o : ExecOracle) (name : String) (args : List (String × PyVal)),
      statusOf (executeTool o name args) = .error ↔
        "Error:".data.isPrefixOf (executeTool o name args).data = true) ∧
    (∀ (o : ExecOracle) (args : List (String × PyVal)),
      pyLookup args "path" = Option.none →
      statusOf (executeTool o "read_file" args) = .error) ∧
    (∀ (o : ExecOracle) (p : String) (args : List (String × PyVal)),
      o.readOutcome = .permissionDenied →
      pyLookup args "path" = some (.str p) → p ≠ "" →
      statusOf (executeTool o "read_file" args) = .error) ∧
    (∀ (o : ExecOracle) (p : String) (args : List (String × PyVal))
      (msg : String),
      o.readOutcome = .exn msg →
      pyLookup args "path" = some (.str p) → p ≠ "" →
      executeTool o "read_file" args = "Error reading file: " ++ msg ∧
        statusOf (executeTool o "read_file" args) = .success) ∧
    (∀ (o : ExecOracle) (p : String) (args : List (String × PyVal))
      (msg : String),
      o.writeOutcome = .exn msg →
      pyLookup args "path" = some (.str p) → p ≠ "" →
      executeTool o "write_file" args = "Error writing file: " ++ msg ∧
        statusOf (executeTool o "write_file" args) = .success) ∧
    (∀ (o : ExecOracle) (args : List (String × PyVal)) (msg : String),
      o.listOutcome = .exn msg →
      executeTool o "list_directory" args =
          "Error listing directory: " ++ msg ∧
        statusOf (executeTool o "list_directory" args) = .success) ∧
    (∀ (o : ExecOracle) (name : String) (args : List (String × PyVal)),
      name ∉ builtinToolNames → o.dynToolExists = false →
      statusOf (executeTool o name args) = .success) ∧
    (∀ (o : ExecOracle) (name : String) (args : List (String × PyVal))
      (msg : String),
      name ∉ builtinToolNames → o.dynToolExists = true →
      o.dynOutcome = .raises msg →
      executeTool o name args = "Tool execution error: " ++ msg ∧
        statusOf (executeTool o name args) = .success) := by
  have hneq : ∀ (name : String), name ∉ builtinToolNames →
      (name = "list_tools" → False) ∧ (name = "read_tool" → False) ∧
      (name = "run_command" → False) ∧ (name = "list_directory" → False) ∧
      (name = "read_file" → False) ∧ (name = "write_file" → False) := by
    intro name hname
    simp only [builtinToolNames, List.mem_cons, List.not_mem_nil, or_false,
      not_or] at hname
    exact ⟨hname.1, hname.2.1, hname.2.2.1, hname.2.2.2.1,
      hname.2.2.2.2.1, hname.2.2.2.2.2⟩
  refine ⟨?_, ?_, ?_, ?_, ?_, ?_, ?_, ?_⟩
  · intro o name args
    unfold statusOf
    by_cases h : "Error:".data.isPrefixOf (executeTool o name args).data = true
    · simp [h]
    · simp [h]
  · intro o args h
    have hstr : argStr args "path" = "" := by
      unfold argStr
      rw [h]
    simp only [executeTool, toolReadFile, hstr, reduceIte]
    exact statusOf_error_append _
  · intro o p args ho hp hpne
    have hstr : argStr args "path" = p := by
      unfold argStr
      rw [hp]
    simp only [executeTool, toolReadFile, hstr, ho, reduceIte, if_neg hpne]
    have hsplit : "Error: Permission denied reading '" ++ p ++ "'" =
        "Error:" ++ (" Permission denied reading '" ++ (p ++ "'")) := by
      rw [← String.append_assoc, ← String.append_assoc]
      rfl
    rw [hsplit]
    exact statusOf_error_append _
  · intro o p args msg ho hp hpne
    have hstr : argStr args "path" = p := by
      unfold argStr
      rw [hp]
    simp only [executeTool, toolReadFile, hstr, ho, reduceIte, if_neg hpne]
    exact ⟨by trivial, statusOf_catchall _ _ (by decide) (by decide)⟩
  · intro o p args msg ho hp hpne
    have hstr : argStr args "path" = p := by
      unfold argStr
      rw [hp]
    simp only [executeTool, toolWriteFile, hstr, ho, reduceIte, if_neg hpne]
    exact ⟨by trivial, statusOf_catchall _ _ (by decide) (by decide)⟩
  · intro o args msg ho
    simp only [executeTool, toolListDirectory, ho, reduceIte]
    exact ⟨by trivial, statusOf_catchall _ _ (by decide) (by decide)⟩
  · intro o name args hname hdyn
    obtain ⟨h1, h2, h3, h4, h5, h6⟩ := hneq name hname
    simp only [executeTool, if_neg h1, if_neg h2, if_neg h3, if_neg h4,
      if_neg h5, if_neg h6, hdyn, Bool.false_eq_true, if_false, reduceIte]
    refine statusOf_of_head _ 'T' ?_ (by decide)
    simp [String.data_append]
  · intro o name args msg hname hdyn hout
    obtain ⟨h1, h2, h3, h4, h5, h6⟩ := hneq name hname
    simp only [executeTool, if_neg h1, if_neg h2, if_neg h3, if_neg h4,
      if_neg h5, if_neg h6, hdyn, hout, reduceIte]
    refine ⟨by trivial, ?_⟩
    refine statusOf_of_head _ 'T' ?_ (by decide)
    simp [String.data_append]

/-- C3 (witness): the amended classification at concrete dispatches —
a missing `path`, a permission failure, catch-all read/write/list
exceptions, an unknown tool, and a raising dynamic tool. -/
theorem C3_witness :
    statusOf (executeTool oracleStub "read_file" []) = .error ∧
    statusOf (executeTool
      { oracleStub with readOutcome := .permissionDenied } "read_file"
      [("path", .str "a.txt")]) = .error ∧
    statusOf (executeTool
      { oracleStub with readOutcome := .exn "disk gone" } "read_file"
      [("path", .str "a.txt")]) = .success ∧
    statusOf (executeTool
      { oracleStub with writeOutcome := .exn "disk full" } "write_file"
      [("path", .str "a.txt")]) = .success ∧
    statusOf (executeTool
      { oracleStub with listOutcome := .exn "loop" } "list_directory"
      [("path", .str "d")]) = .success ∧
    statusOf (executeTool oracleStub "mytool" []) = .success ∧
    executeTool
      { oracleStub with dynToolExists := true, dynOutcome := .raises "boom" }
      "mytool" [] = "Tool execution error: " ++ "boom" := by
  refine ⟨?_, ?_, ?_, ?_, ?_, ?_, ?_⟩
  · exact C3_status_classification.2.1 oracleStub [] rfl
  · exact C3_status_classification.2.2.1 _ "a.txt" _ rfl rfl (by decide)
  · exact (C3_status_classification.2.2.2.1
      { oracleStub with readOutcome := .exn "disk gone" } "a.txt"
      [("path", .str "a.txt")] "disk gone" rfl rfl (by decide)).2
  · exact (C3_status_classification.2.2.2.2.1
      { oracleStub with writeOutcome := .exn "disk full" } "a.txt"
      [("path", .str "a.txt")] "disk full" rfl rfl (by decide)).2
  · exact (C3_status_classification.2.2.2.2.2.1 _ _ "loop" rfl).2
  · exact C3_status_classification.2.2.2.2.2.2.1 oracleStub "mytool" []
      (by decide) rfl
  · exact (C3_status_classification.2.2.2.2.2.2.2
      { oracleStub with dynToolExists := true, dynOutcome := .raises "boom" }
      "mytool" [] "boom" (by decide) rfl rfl).1

/-! ### C4: tool-call extraction -/

/-- A concrete stand-in for `json.loads` (after the triple-quote
repair) on the candidate strings arising in the C4 inputs: the
well-formed object parses to its entries, everything else — in
particular the malformed `{bad` block — fails as `json.loads` would. -/
def toyParse : String → Option (List (String × PyVal)) := fun s =>
  if s = "\x7b\"tool\": \"read_file\"\x7d" then
    some [("tool", .str "read_file")]
  else Option.none

/-- C4 (counterexample): in a response whose `tool` fence holds
malformed JSON (starting with an object brace) and whose `json` fence
holds a syntactically valid invocation with a `"tool"` key, extraction
returns no call at all: the parse failure in the first convention
aborts the whole search instead of letting the `json` convention be
tried — refuting the claim. -/
theorem C4_counterexample :
    extractToolCall toyParse
      "```tool\n\x7bbad\n```\n```json\n\x7b\"tool\": \"read_file\"\x7d\n```" =
      Option.none ∧
    candidateBlock
      "```tool\n\x7bbad\n```\n```json\n\x7b\"tool\": \"read_file\"\x7d\n```"
      "```json" = some "\x7b\"tool\": \"read_file\"\x7d" ∧
    toyParse "\x7b\"tool\": \"read_file\"\x7d" =
      some [("tool", .str "read_file")] ∧
    (pyLookup [("tool", PyVal.str "read_file")] "tool").isSome = true :=
  ⟨rfl, rfl, rfl, rfl⟩

/-- C4 (amended): extraction tries the fence conventions in the fixed
priority order and skips candidates that do not begin with an object
brace, but a candidate that does begin with a brace and fails to parse
aborts the entire extraction with no call found — the remaining
conventions are not tried (the `try/except` wraps the whole marker
loop); a first-fence candidate that parses to an object with a `"tool"`
key is returned.  In either case nothing is raised. -/
theorem C4_extraction :
    (∀ (parse : String → Option (List (String × PyVal))) (r s : String),
      candidateBlock r "```tool" = some s →
      "\x7b".data.isPrefixOf s.data = true →
      parse s = Option.none →
      extractToolCall parse r = Option.none) ∧
    (∀ (parse : String → Option (List (String × PyVal)))
      (r s : String) (d : List (String × PyVal)),
      candidateBlock r "```tool" = some s →
      "\x7b".data.isPrefixOf s.data = true →
      parse s = some d → (pyLookup d "tool").isSome = true →
      extractToolCall parse r = some (.dict d)) := by
  constructor
  · intro parse r s hcand hpre hparse
    unfold extractToolCall extractGo
    rw [hcand]
    dsimp only
    rw [if_neg (by simp [hpre]), hparse]
  · intro parse r s d hcand hpre hparse hsome
    unfold extractToolCall extractGo
    rw [hcand]
    dsimp only
    rw [if_neg (by simp [hpre]), hparse]
    dsimp only
    rw [if_pos hsome]

/-- C4 (witness): the abort and success branches at concrete
responses. -/
theorem C4_witness :
    extractToolCall toyParse "```tool\n\x7bbad\n```" = Option.none ∧
    extractToolCall toyParse
      "```tool\n\x7b\"tool\": \"read_file\"\x7d\n```" =
      some (.dict [("tool", .str "read_file")]) := by
  constructor
  · exact C4_extraction.1 toyParse "```tool\n\x7bbad\n```" "\x7bbad"
      rfl rfl rfl
  · exact C4_extraction.2 toyParse
      "```tool\n\x7b\"tool\": \"read_file\"\x7d\n```"
      "\x7b\"tool\": \"read_file\"\x7d" [("tool", .str "read_file")]
      rfl rfl rfl rfl

/-! ### C2: argument normalization -/

theorem pyLookup_map_set_self :
    ∀ (d : List (String × PyVal)) (k : String) (v : PyVal),
      d.any (fun kv => kv.1 = k) = true →
      pyLookup (d.map (fun kv => if kv.1 = k then (k, v) else kv)) k =
        some v := by
  intro d k v h
  induction d with
  | nil => cases h
  | cons kv rest ih =>
    by_cases hk : kv.1 = k
    · simp only [List.map_cons, if_pos hk]
      show (if k = k then some v else _) = some v
      rw [if_pos rfl]
    · simp only [List.map_cons, if_neg hk]
      show (if kv.1 = k then some kv.2 else
        pyLookup (rest.map fun kv => if kv.1 = k then (k, v) else kv) k) =
        some v
      rw [if_neg hk]
      exact ih (by simpa [List.any_cons, hk] using h)

theorem pyLookup_map_set_ne :
    ∀ (d : List (String × PyVal)) (k : String) (v : PyVal) (n : String),
      k ≠ n →
      pyLookup (d.map (fun kv => if kv.1 = k then (k, v) else kv)) n =
        pyLookup d n := by
  intro d k v n h
  induction d with
  | nil => rfl
  | cons kv rest ih =>
    by_cases hk : kv.1 = k
    · simp only [List.map_cons, if_pos hk]
      show (if k = n then some v else
        pyLookup (rest.map fun kv => if kv.1 = k then (k, v) else kv) n) =
        (if kv.1 = n then some kv.2 else pyLookup rest n)
      rw [if_neg h, if_neg (by rw [hk]; exact h)]
      exact ih
    · simp only [List.map_cons, if_neg hk]
      show (if kv.1 = n then some kv.2 else
        pyLookup (rest.map fun kv => if kv.1 = k then (k, v) else kv) n) =
        (if kv.1 = n then some kv.2 else pyLookup rest n)
      by_cases hn : kv.1 = n
      · rw [if_pos hn, if_pos hn]
      · rw [if_neg hn, if_neg hn]
        exact ih

theorem pyLookup_append_single_self :
    ∀ (d : List (String × PyVal)) (k : String) (v : PyVal),
      (∀ kv ∈ d, kv.1 ≠ k) →
      pyLookup (d ++ [(k, v)]) k = some v := by
  intro d k v h
  induction d with
  | nil =>
    show (if k = k then some v else pyLookup [] k) = some v
    rw [if_pos rfl]
  | cons kv rest ih =>
    show (if kv.1 = k then some kv.2 else pyLookup (rest ++ [(k, v)]) k) =
      some v
    rw [if_neg (h kv (List.mem_cons_self _ _))]
    exact ih (fun kv hm => h kv (List.mem_cons_of_mem _ hm))

theorem pyLookup_append_single_ne :
    ∀ (d : List (String × PyVal)) (k : String) (v : PyVal) (n : String),
      k ≠ n →
      pyLookup (d ++ [(k, v)]) n = pyLookup d n := by
  intro d k v n h
  induction d with
  | nil =>
    show (if k = n then some v else pyLookup [] n) = pyLookup [] n
    rw [if_neg h]
  | cons kv rest ih =>
    show (if kv.1 = n then some kv.2 else pyLookup (rest ++ [(k, v)]) n) =
      (if kv.1 = n then some kv.2 else pyLookup rest n)
    by_cases hn : kv.1 = n
    · rw [if_pos hn, if_pos hn]
    · rw [if_neg hn, if_neg hn]
      exact ih

theorem pyLookup_pyDictSet_self (d : List (String × PyVal)) (k : String)
    (v : PyVal) : pyLookup (pyDictSet d k v) k = some v := by
  unfold pyDictSet
  by_cases hany : d.any (fun kv => kv.1 = k) = true
  · rw [if_pos hany]
    exact pyLookup_map_set_self d k v hany
  · rw [if_neg hany]
    refine pyLookup_append_single_self d k v ?_
    intro kv hm he
    exact hany (List.any_eq_true.mpr ⟨kv, hm, by simp [he]⟩)

theorem pyLookup_pyDictSet_ne (d : List (String × PyVal)) (k : String)
    (v : PyVal) (n : String) (h : k ≠ n) :
    pyLookup (pyDictSet d k v) n = pyLookup d n := by
  unfold pyDictSet
  split
  · exact pyLookup_map_set_ne d k v n h
  · exact pyLookup_append_single_ne d k v n h

theorem firstAliasHit_eq (rawArgs : List (String × PyVal))
    (aliases : List String) (k : String) (v : PyVal)
    (hk : k ∈ aliases) (hkv : pyLookup rawArgs k = some v)
    (hothers : ∀ a ∈ aliases, a ≠ k → pyLookup rawArgs a = Option.none) :
    firstAliasHit rawArgs aliases = some (k, v) := by
  induction aliases with
  | nil => cases hk
  | cons a rest ih =>
    by_cases hak : a = k
    · subst hak
      simp [firstAliasHit, List.findSome?_cons, hkv]
    · have hnone := hothers a (List.mem_cons_self _ _) hak
      have hkrest : k ∈ rest := by
        rcases List.mem_cons.1 hk with h | h
        · exact absurd h.symm hak
        · exact h
      show List.findSome? _ (a :: rest) = some (k, v)
      rw [List.findSome?_cons]
      simp only [hnone, Option.map_none]
      exact ih hkrest
        (fun a ha hne => hothers a (List.mem_cons_of_mem _ ha) hne)

/-- Under the single-present-alias hypotheses, `paramMatch` finds
exactly the alias's value. -/
theorem paramMatch_alias (rawArgs : List (String × PyVal))
    (used : List String) (p : ToolParameterM) (k : String) (v : PyVal)
    (hcanon : pyLookup rawArgs p.name = Option.none)
    (hk : k ∈ p.aliases) (hkv : pyLookup rawArgs k = some v)
    (hothers : ∀ a ∈ p.aliases, a ≠ k → pyLookup rawArgs a = Option.none)
    (hv : v.isNone = false) :
    paramMatch rawArgs used p =
      (v, some k,
       ["Arg '" ++ k ++ "' normalized to '" ++ p.name ++ "'"]) := by
  unfold paramMatch
  rw [hcanon, firstAliasHit_eq rawArgs p.aliases k v hk hkv hothers]
  dsimp only
  rw [if_neg (by simp [hv])]

/-- The per-parameter step binds the canonical name to the value of the
parameter's unique supplied alias. -/
theorem normArgStep_binds_alias (rawArgs : List (String × PyVal))
    (st : NormState) (p : ToolParameterM) (k : String) (v : PyVal)
    (hcanon : pyLookup rawArgs p.name = Option.none)
    (hk : k ∈ p.aliases) (hkv : pyLookup rawArgs k = some v)
    (hothers : ∀ a ∈ p.aliases, a ≠ k → pyLookup rawArgs a = Option.none)
    (hv : v.isNone = false) :
    pyLookup (normArgStep rawArgs st p).normalized p.name = some v := by
  unfold normArgStep
  rw [paramMatch_alias rawArgs st.used p k v hcanon hk hkv hothers hv]
  dsimp only
  rw [if_pos (by simp [hv])]
  exact pyLookup_pyDictSet_self _ _ _

/-- A step for a parameter with a different canonical name leaves a
binding untouched. -/
theorem normArgStep_frame (rawArgs : List (String × PyVal)) (st : NormState)
    (q : ToolParameterM) (n : String) (hne : q.name ≠ n) :
    pyLookup (normArgStep rawArgs st q).normalized n =
      pyLookup st.normalized n := by
  unfold normArgStep
  dsimp only
  split
  · exact pyLookup_pyDictSet_ne _ _ _ _ hne
  · split
    · exact pyLookup_pyDictSet_ne _ _ _ _ hne
    · split
      · rfl
      · rfl

theorem foldl_normArgStep_frame (rawArgs : List (String × PyVal))
    (params : List ToolParameterM) (n : String)
    (h : ∀ q ∈ params, q.name ≠ n) :
    ∀ st : NormState,
      pyLookup (params.foldl (normArgStep rawArgs) st).normalized n =
        pyLookup st.normalized n := by
  induction params with
  | nil => intro st; rfl
  | cons q rest ih =>
    intro st
    rw [List.foldl_cons,
      ih (fun q hq => h q (List.mem_cons_of_mem _ hq)),
      normArgStep_frame rawArgs st q n (h q (List.mem_cons_self _ _))]

/-- C2 (counterexample): with the registry's `grep_files` schema and
the raw argument mapping `{"file_pattern": "*.py"}`, the single raw key
`file_pattern` is bound to two different canonical parameters: the
fuzzy pass binds it to `pattern` (similarity of `file_pattern` to
`pattern` is 14/19 >= 0.7) and the canonical pass later binds it to
`file_pattern` itself — refuting the claim that each raw key is
consumed at most once. -/
theorem C2_counterexample :
    normalizeArguments [("file_pattern", .str "*.py")] grepFilesSchema =
      ([("pattern", .str "*.py"), ("path", .str "."),
        ("file_pattern", .str "*.py")],
       ["Fuzzy matched 'file_pattern' to 'pattern'"]) ∧
    pyLookup
      (normalizeArguments [("file_pattern", .str "*.py")] grepFilesSchema).1
      "pattern" = some (.str "*.py") ∧
    pyLookup
      (normalizeArguments [("file_pattern", .str "*.py")] grepFilesSchema).1
      "file_pattern" = some (.str "*.py") :=
  ⟨rfl, rfl, rfl⟩

/-- C2 (amended): the no-double-binding half of the claim fails (a raw
key captured by the fuzzy pass for an earlier parameter can be consumed
again by an exact match of a later parameter); the alias half holds:
for any schema with distinct parameter names, a parameter whose
canonical key is absent from the raw mapping and exactly one of whose
declared aliases is supplied (with a non-null value) is bound under its
canonical name to the value supplied for that alias. -/
theorem C2_alias_binding (schema : ToolSchemaM)
    (rawArgs : List (String × PyVal)) (p : ToolParameterM) (k : String)
    (v : PyVal)
    (hnd : (schema.parameters.map (fun q => q.name)).Nodup)
    (hp : p ∈ schema.parameters)
    (hcanon : pyLookup rawArgs p.name = Option.none)
    (hk : k ∈ p.aliases) (hkv : pyLookup rawArgs k = some v)
    (hothers : ∀ a ∈ p.aliases, a ≠ k → pyLookup rawArgs a = Option.none)
    (hv : v.isNone = false) :
    pyLookup (normalizeArguments rawArgs schema).1 p.name = some v := by
  obtain ⟨l1, l2, hsplit⟩ := List.append_of_mem hp
  unfold normalizeArguments
  rw [hsplit, List.foldl_append, List.foldl_cons]
  have hl2 : ∀ q ∈ l2, q.name ≠ p.name := by
    rw [hsplit, List.map_append, List.map_cons] at hnd
    have h2 := hnd.of_append_right
    intro q hq he
    exact (List.nodup_cons.1 h2).1 (he ▸ List.mem_map_of_mem _ hq)
  rw [foldl_normArgStep_frame rawArgs l2 p.name hl2]
  exact normArgStep_binds_alias rawArgs _ p k v hcanon hk hkv hothers hv

/-- C2 (witness): `write_file` with the alias `filename` binds the
required `path` parameter to the supplied value. -/
theorem C2_witness :
    pyLookup
      (normalizeArguments [("filename", .str "a.txt")] writeFileSchema).1
      "path" = some (.str "a.txt") := by
  refine C2_alias_binding writeFileSchema [("filename", .str "a.txt")]
    { name := "path", required := true
      aliases := ["filename", "file", "filepath", "file_path", "name"]
      param_type := "path" }
    "filename" (.str "a.txt") (by decide) (List.mem_cons_self _ _) rfl
    (by decide) rfl ?_ rfl
  intro a ha hne
  fin_cases ha
  · exact absurd rfl hne
  · rfl
  · rfl
  · rfl
  · rfl

/-! ### C8: the agent-mode iteration cap -/

/-- Normalization succeeds on any mapping whose `tool` value is a
string. -/
theorem normalize_ok_of_toolStr (hasWs : Bool)
    (d : List (String × PyVal)) (s : String)
    (h : pyLookup d "tool" = some (.str s)) :
    ∃ out, normalizeToolCall hasWs (.dict d) = .ok out := by
  have hg : pyGet d "tool" (.str "") = .str s := by
    unfold pyGet
    rw [h]
    rfl
  simp only [normalizeToolCall, hg]
  split
  · exact ⟨_, rfl⟩
  · exact ⟨_, rfl⟩

/-- When every remaining iteration yields a nonempty response carrying
a tool call with a string tool name, the loop runs out of fuel: the
result is the capped response with one recorded tool result per
iteration and the iteration count 15. -/
theorem processLoop_capped (hasWs : Bool)
    (parse : String → Option (List (String × PyVal)))
    (clean : String → String) (provider : String)
    (llm : Nat → String) (execText : Nat → String) :
    ∀ (k i : Nat) (acc : List ToolResultM) (last : String),
      (∀ j, j < k → llm (i + j) ≠ "" ∧
        ∃ d s, extractToolCall parse (llm (i + j)) = some (.dict d) ∧
          pyLookup d "tool" = some (.str s)) →
      ∃ res,
        processLoop hasWs parse clean provider llm execText k i acc last =
          .ok res ∧
        res.tool_calls.length = acc.length + k ∧
        res.iterations = 15 ∧
        ∃ t, res.response =
          "I've completed 15 tool operations. Here's what I found:\n\n" ++ t := by
  intro k
  induction k with
  | zero =>
    intro i acc last _
    refine ⟨_, rfl, ?_, rfl, ⟨clean last, rfl⟩⟩
    simp [buildResponse]
  | succ k ih =>
    intro i acc last h
    obtain ⟨hne, d, s, hex, hts⟩ := h 0 (Nat.succ_pos k)
    rw [Nat.add_zero] at hne hex
    obtain ⟨out, hok⟩ := normalize_ok_of_toolStr hasWs d s hts
    have hstep : ∃ r,
        processLoop hasWs parse clean provider llm execText (k + 1) i acc
          last =
        processLoop hasWs parse clean provider llm execText k (i + 1)
          (acc ++ [r]) (llm i) := by
      simp only [processLoop]
      rw [if_neg hne, hex]
      dsimp only
      rw [hok]
      exact ⟨_, rfl⟩
    obtain ⟨r, hstep⟩ := hstep
    rw [hstep]
    obtain ⟨res, hres, hlen, hit, ht⟩ := ih (i + 1) (acc ++ [r]) (llm i)
      (by
        intro j hj
        have := h (j + 1) (Nat.succ_lt_succ hj)
        rwa [show i + (j + 1) = i + 1 + j from by omega] at this)
    refine ⟨res, hres, ?_, hit, ht⟩
    rw [hlen]
    simp
    omega

/-- C8: in agent mode, when each of the first 15 LLM responses contains
a tool call (a fenced object with a string-valued `"tool"` key),
`process` terminates after exactly 15 iterations; the returned response
text begins with the `I've completed 15 tool operations` notice and the
recorded tool-call list has exactly 15 entries. -/
theorem C8_iteration_cap (hasWs : Bool)
    (parse : String → Option (List (String × PyVal)))
    (clean : String → String) (provider : String)
    (llm : Nat → String) (execText : Nat → String)
    (h : ∀ j, j < 15 → llm j ≠ "" ∧
      ∃ d s, extractToolCall parse (llm j) = some (.dict d) ∧
        pyLookup d "tool" = some (.str s)) :
    ∃ res, processAgent hasWs parse clean provider llm execText = .ok res ∧
      res.tool_calls.length = 15 ∧
      res.iterations = 15 ∧
      ∃ t, res.response =
        "I've completed 15 tool operations. Here's what I found:\n\n" ++ t := by
  have hmain := processLoop_capped hasWs parse clean provider llm execText
    15 0 [] "" (by intro j hj; simpa using h j hj)
  simpa [processAgent] using hmain

/-- A concrete stand-in for `json.loads` on the C8 witness response. -/
def toyParseListTools : String → Option (List (String × PyVal)) := fun s =>
  if s = "\x7b\"tool\": \"list_tools\"\x7d" then
    some [("tool", .str "list_tools")]
  else Option.none

/-- C8 (witness): a stub LLM answering every turn with a `list_tools`
call drives the loop to the cap. -/
theorem C8_witness :
    ∃ res,
      processAgent true toyParseListTools id "groq"
        (fun _ => "```tool\n\x7b\"tool\": \"list_tools\"\x7d\n```")
        (fun _ => "ok") = .ok res ∧
      res.tool_calls.length = 15 ∧
      res.iterations = 15 ∧
      ∃ t, res.response =
        "I've completed 15 tool operations. Here's what I found:\n\n" ++ t :=
  C8_iteration_cap true toyParseListTools id "groq"
    (fun _ => "```tool\n\x7b\"tool\": \"list_tools\"\x7d\n```")
    (fun _ => "ok")
    (by
      intro j hj
      refine ⟨?_, [("tool", PyVal.str "list_tools")], "list_tools", rfl, rfl⟩
      show ("```tool\n\x7b\"tool\": \"list_tools\"\x7d\n```" : String) ≠ ""
      decide)
